import Mathlib

/-!
ILLIXR: the reusable threadloop and the shutdown race of the runtime.

A verification development over a shallow embedding of

* `src/common/threadloop.hpp` (class `ILLIXR::threadloop`),
* `src/runtime/main.cpp` (`cancellable_sleep`, `main`),
* `src/pose_prediction/plugin.cpp` (class `pose_prediction_impl`),
* `src/timewarp_gl/plugin.cpp` (the hooks of `timewarp_gl`, the index grid of
  `BuildTimewarp`).

Conventions of the embedding.

* A virtual hook of `threadloop` is a field of `Hooks σ`, a function on the
  plugin state `σ`.
* Every call the loop thread makes is also logged as an `Event`, so that
  statements about the order of calls are statements about a list.
* `_m_terminate` is written by another thread.  A thread that reads it sees
  the values an oracle `loads : Nat → Bool` supplies: `loads k` is the value
  of the `k`-th `_m_terminate.load()` the thread performs.
* A loop that may spin forever takes a bound `fuel` on the number of times
  its condition is evaluated; `finished = false` says the bound was reached
  with the loop still spinning.
* Durations and time points are integers, in nanoseconds.  They are held in
  64 bits: a sum, difference or product of two of them is the exact result
  reduced to the 64-bit range (`wrap_int64`), as the compiled code computes it.
-/

set_option autoImplicit false

namespace ILLIXR

/-! ## `threadloop`: hooks and the loop thread -/

/-- The enumeration `threadloop::skip_option` (threadloop.hpp, lines 55-65). -/
inductive skip_option where
  | run
  | skip_and_spin
  | skip_and_yield
  deriving DecidableEq, Repr

/-- The virtual member functions a plugin overrides (threadloop.hpp, lines
70, 75 and 82), as functions on the plugin state. -/
structure Hooks (σ : Type) where
  _p_should_skip : σ → skip_option × σ
  _p_thread_setup : σ → σ
  _p_one_iteration : σ → σ

/-- One call made by the loop thread. -/
inductive Event where
  | thread_setup
  | should_terminate (read : Bool)
  | should_skip (answer : skip_option)
  | one_iteration
  deriving DecidableEq, Repr

/-- What a loop thread has done: the plugin state it left, the calls it made
in order, and whether `thread_main` returned. -/
structure Run (σ : Type) where
  state : σ
  trace : List Event
  finished : Bool

/-- The `while` loop of `threadloop::thread_main` (threadloop.hpp, lines
47-50), entered with `k` loads of the flag already made:

    while (!should_terminate()) {
        PRINT_CPU_TIME_FOR_THIS_BLOCK(get_name());
        _p_one_iteration();
    }

`PRINT_CPU_TIME_FOR_THIS_BLOCK` is a timing printout from `cpu_timer.hpp`; it
calls no hook and does not touch the flag, and is not logged. -/
def thread_loop {σ : Type} (h : Hooks σ) (loads : Nat → Bool) : Nat → Nat → σ → Run σ
  | 0, _, s => ⟨s, [], false⟩
  | fuel + 1, k, s =>
    if loads k then
      ⟨s, [Event.should_terminate true], true⟩
    else
      let r := thread_loop h loads fuel (k + 1) (h._p_one_iteration s)
      ⟨r.state, Event.should_terminate false :: Event.one_iteration :: r.trace, r.finished⟩

/-- The body of the loop thread, `threadloop::thread_main` (threadloop.hpp,
lines 45-51): `_p_thread_setup()` and then the loop. -/
def thread_main {σ : Type} (h : Hooks σ) (loads : Nat → Bool) (fuel : Nat) (s : σ) : Run σ :=
  let r := thread_loop h loads fuel 0 (h._p_thread_setup s)
  ⟨r.state, Event.thread_setup :: r.trace, r.finished⟩

/-- The calls of `n` passes through the loop body: a load that read `false`,
then the iteration. -/
def passes : Nat → List Event
  | 0 => []
  | n + 1 => Event.should_terminate false :: Event.one_iteration :: passes n

/-- The number of `_p_one_iteration()` calls in a trace. -/
def iterations (tr : List Event) : Nat :=
  tr.count Event.one_iteration

/-- The `_p_should_skip()` calls in a trace. -/
def policy_calls (tr : List Event) : List Event :=
  tr.filter fun e => match e with
    | Event.should_skip _ => true
    | _ => false

/-- A plugin whose state counts its iterations and whose throttle policy
always answers `skip_and_yield`: what `timewarp_gl::_p_should_skip` answers
as long as nothing was published on "eyebuffer". -/
def always_yield : Hooks Nat where
  _p_should_skip := fun s => (skip_option.skip_and_yield, s)
  _p_thread_setup := fun s => s
  _p_one_iteration := fun s => s + 1

/-- The flag reads `false` twice and `true` from the third load on. -/
def set_after_two : Nat → Bool := fun k => decide (2 ≤ k)

/-! ## `threadloop::reliable_sleep` -/

/-- The member `SLEEP_SAFETY_FACTOR`, a `const size_t` (threadloop.hpp, line 117). -/
def SLEEP_SAFETY_FACTOR : Nat := 100

/-- The member `MAX_TIMEOUT`, `std::chrono::milliseconds {100}` (threadloop.hpp,
line 120), in nanoseconds. -/
def MAX_TIMEOUT : Int := 100 * 1000000

/-- Conversion of a signed 64-bit count to `size_t`: the value modulo `2^64`. -/
def to_uint64 (x : Int) : Nat :=
  (x % 2 ^ 64).toNat

/-- Conversion of an unsigned 64-bit count to the signed 64-bit `rep` of
`std::chrono::nanoseconds`: two's complement. -/
def to_int64 (x : Nat) : Int :=
  if x % 2 ^ 64 < 2 ^ 63 then ((x % 2 ^ 64 : Nat) : Int) else ((x % 2 ^ 64 : Nat) : Int) - 2 ^ 64

/-- The result of an addition, subtraction or multiplication of 64-bit signed
counts, as the compiled code computes it: the exact result reduced to the
64-bit two's complement range. -/
def wrap_int64 (x : Int) : Int :=
  to_int64 (to_uint64 x)

/-- The quantum computed by `reliable_sleep` (threadloop.hpp, lines 103-106):

    std::min<std::common_type_t<decltype(sleep_duration), decltype(MAX_TIMEOUT)>>(
        sleep_duration / SLEEP_SAFETY_FACTOR, MAX_TIMEOUT)

`sleep_duration` counts nanoseconds in a signed 64-bit `rep`.  Dividing a
duration by a `size_t` is done in the common type of the two, unsigned 64-bit;
`std::min` is instantiated at signed nanoseconds, so the quotient is converted
back before it is compared with `MAX_TIMEOUT`. -/
def sleep_quantum (sleep_duration : Int) : Int :=
  min (to_int64 (to_uint64 sleep_duration / SLEEP_SAFETY_FACTOR)) MAX_TIMEOUT

/-- One call made by `reliable_sleep`. -/
inductive SleepEvent where
  | should_terminate (read : Bool)
  | now (t : Int)
  | sleep_for (d : Int)
  deriving DecidableEq, Repr

/-- What a call of `reliable_sleep` has done: its calls in order, and whether
it returned. -/
structure SleepRun where
  trace : List SleepEvent
  finished : Bool

/-- The `while` loop of `reliable_sleep` (threadloop.hpp, lines 110-112),
entered with `k` loads of the flag already made:

    while (!should_terminate() && high_resolution_clock::now() - start < sleep_duration) {
        std::this_thread::sleep_for(sleep_quantum);
    }

`clock i` is the value of the `i`-th call of `now()`; call `0` is the one that
initialises `start`.  `&&` reads the clock only after a load that read
`false`, so pass `k` of the loop makes call `k + 1`.  The difference
`now() - start` is a subtraction of 64-bit counts. -/
def reliable_sleep_loop (loads : Nat → Bool) (clock : Nat → Int)
    (start sleep_duration quantum : Int) : Nat → Nat → SleepRun
  | 0, _ => ⟨[], false⟩
  | fuel + 1, k =>
    if loads k then
      ⟨[SleepEvent.should_terminate true], true⟩
    else if wrap_int64 (clock (k + 1) - start) < sleep_duration then
      let r := reliable_sleep_loop loads clock start sleep_duration quantum fuel (k + 1)
      ⟨SleepEvent.should_terminate false :: SleepEvent.now (clock (k + 1))
        :: SleepEvent.sleep_for quantum :: r.trace, r.finished⟩
    else
      ⟨[SleepEvent.should_terminate false, SleepEvent.now (clock (k + 1))], true⟩

/-- The function `threadloop::reliable_sleep(stop)` (threadloop.hpp, lines 99-113).
The time points `stop` and `start` hold 64-bit counts of nanoseconds, and
`sleep_duration = stop - start` is their 64-bit difference. -/
def reliable_sleep (loads : Nat → Bool) (clock : Nat → Int) (stop : Int) (fuel : Nat) : SleepRun :=
  let start := clock 0
  let sleep_duration := wrap_int64 (stop - start)
  let r := reliable_sleep_loop loads clock start sleep_duration (sleep_quantum sleep_duration) fuel 0
  ⟨SleepEvent.now start :: r.trace, r.finished⟩

/-- The lengths of the chunks slept, in order: the arguments of the
`sleep_for` calls of a trace. -/
def chunks : List SleepEvent → List Int
  | [] => []
  | SleepEvent.sleep_for d :: tr => d :: chunks tr
  | _ :: tr => chunks tr

/-- The calls of passes `k, ..., k + n - 1` of the loop of `reliable_sleep`
when each of them sleeps: a load that read `false`, a clock reading, a chunk. -/
def sleep_passes (clock : Nat → Int) (quantum : Int) : Nat → Nat → List SleepEvent
  | _, 0 => []
  | k, n + 1 =>
    SleepEvent.should_terminate false :: SleepEvent.now (clock (k + 1))
      :: SleepEvent.sleep_for quantum :: sleep_passes clock quantum (k + 1) n

/-- The clock reads one microsecond more at each call. -/
def microsecond_clock : Nat → Int := fun i => 1000 * (i : Int)

/-- A clock that counts nanoseconds since 1970, read in November 2023 and one
microsecond later at each call. -/
def epoch_clock : Nat → Int := fun i => 1700000000000000000 + 1000 * (i : Int)

/-- A clock that is set back by one microsecond between its first reading and
the later ones. -/
def stepped_back_clock : Nat → Int :=
  fun i => if i = 0 then 1700000000000001000 else 1700000000000000000

/-! ## `threadloop`: the object, `start`, `stop`, the destructor -/

/-- How an operation can fail to return normally. -/
inductive Fault where
  /-- `std::thread::join` on a handle that is not joinable throws `std::system_error`. -/
  | system_error
  /-- Assigning to, or destroying, a joinable `std::thread` calls `std::terminate`. -/
  | terminate
  /-- The call waits for ever. -/
  | blocked
  deriving DecidableEq, Repr

/-- The handle `std::thread _m_thread`.  A joinable handle stands for a loop
thread; it records the value `_m_terminate` had when the thread was spawned. -/
inductive thread where
  | not_joinable
  | joinable (flag_at_spawn : Bool)
  deriving DecidableEq, Repr

/-- The object `threadloop` (threadloop.hpp, lines 122-124), with the state
`plugin` its hooks act on.  `log` and `joins` are history: the calls made by
the loop threads joined so far, and the number of joins that returned. -/
structure threadloop (σ : Type) where
  plugin : σ
  _m_terminate : Bool
  _m_thread : thread
  log : List Event
  joins : Nat

namespace threadloop

variable {σ : Type}

/-- The constructor (threadloop.hpp, line 21) with the default member
initialisers `_m_terminate {false}` and a default `std::thread`. -/
def construct (p : σ) : threadloop σ :=
  ⟨p, false, thread.not_joinable, [], 0⟩

/-- The function `threadloop::should_terminate` (threadloop.hpp, lines 89-91). -/
def should_terminate (s : threadloop σ) : Bool :=
  s._m_terminate

/-- The function `threadloop::start` (threadloop.hpp, lines 26-28):
`_m_thread = std::thread(...)`. -/
def start (s : threadloop σ) : Except Fault (threadloop σ) :=
  match s._m_thread with
  | thread.joinable _ => Except.error Fault.terminate
  | thread.not_joinable => Except.ok { s with _m_thread := thread.joinable s._m_terminate }

/-- The statement `_m_terminate.store(true)` of `stop` (threadloop.hpp, line 34). -/
def store_terminate (s : threadloop σ) : threadloop σ :=
  { s with _m_terminate := true }

/-- The values the loop thread of a joinable handle reads from the flag, when
`n` of its loads come before the first `store(true)`: every load reads `true`
if the flag was set when the thread was spawned, and otherwise load `j` reads
`true` when the flag has been set and `n ≤ j`. -/
def observed (flag_at_spawn flag_now : Bool) (n : Nat) : Nat → Bool :=
  fun j => flag_at_spawn || (flag_now && decide (n ≤ j))

/-- The statement `_m_thread.join()` of `stop` (threadloop.hpp, line 35): waits
until the loop thread has returned from `thread_main`. -/
def join (h : Hooks σ) (n : Nat) (s : threadloop σ) : Except Fault (threadloop σ) :=
  match s._m_thread with
  | thread.not_joinable => Except.error Fault.system_error
  | thread.joinable b =>
    let r := thread_main h (observed b s._m_terminate n) (n + 1) s.plugin
    if r.finished then
      Except.ok { s with plugin := r.state, _m_thread := thread.not_joinable,
                         log := s.log ++ r.trace, joins := s.joins + 1 }
    else
      Except.error Fault.blocked

/-- The function `threadloop::stop` (threadloop.hpp, lines 33-36). -/
def stop (h : Hooks σ) (n : Nat) (s : threadloop σ) : Except Fault (threadloop σ) :=
  join h n (store_terminate s)

/-- The destructor of the member `_m_thread`. -/
def destroy_thread (s : threadloop σ) : Except Fault (threadloop σ) :=
  match s._m_thread with
  | thread.joinable _ => Except.error Fault.terminate
  | thread.not_joinable => Except.ok s

/-- The destructor `threadloop::~threadloop` (threadloop.hpp, lines 38-42),
followed by the destruction of the members.

It runs after the destructor of the plugin class derived from `threadloop`,
when the virtual functions of the object are those of `threadloop` itself,
where `_p_one_iteration` is pure.  A loop thread spawned with the flag unset
has called `_p_thread_setup()` and made `m` passes with the hooks `h` of the
plugin before that, and begins `n` more passes before it reads the flag that
`stop()` stores; the first of these calls the pure virtual function, which
ends the process in `std::terminate`.  Nothing in the destructor catches what `stop()` throws, and
a destructor is `noexcept`: an exception leaving it ends in `std::terminate`
too. -/
def destructor (h : Hooks σ) (m n : Nat) (s : threadloop σ) : Except Fault (threadloop σ) :=
  if !should_terminate s then
    if s._m_thread = thread.joinable false ∧ n ≠ 0 then
      Except.error Fault.terminate
    else
      match stop h m s with
      | Except.ok s1 => destroy_thread s1
      | Except.error _ => Except.error Fault.terminate
  else
    destroy_thread s

/-- The states of the lifecycle. -/
inductive Phase where
  | constructed
  | running
  | stopping
  | stopped
  deriving DecidableEq, Repr

/-- The lifecycle state of an object, read off its two members. -/
def phase (s : threadloop σ) : Phase :=
  match s._m_terminate, s._m_thread with
  | false, thread.not_joinable => Phase.constructed
  | false, thread.joinable _ => Phase.running
  | true, thread.joinable _ => Phase.stopping
  | true, thread.not_joinable => Phase.stopped

/-- A call of a public member function by the owner of the object. -/
inductive Op where
  | start
  | stop (n : Nat)
  deriving DecidableEq, Repr

/-- One call by the owner. -/
def apply (h : Hooks σ) : Op → threadloop σ → Except Fault (threadloop σ)
  | Op.start, s => start s
  | Op.stop n, s => stop h n s

/-- A sequence of calls by the owner, stopping at the first that fails. -/
def run_ops (h : Hooks σ) : List Op → threadloop σ → Except Fault (threadloop σ)
  | [], s => Except.ok s
  | op :: ops, s =>
    match apply h op s with
    | Except.ok s1 => run_ops h ops s1
    | Except.error e => Except.error e

/-- A loop of `always_yield`, constructed with counter `0` and started. -/
def started_loop : threadloop Nat :=
  ⟨0, false, thread.joinable false, [], 0⟩

/-- The loop `started_loop` after a `stop()` that let two passes through. -/
def stopped_loop : threadloop Nat :=
  ⟨2, true, thread.not_joinable,
    [Event.thread_setup,
     Event.should_terminate false, Event.one_iteration,
     Event.should_terminate false, Event.one_iteration,
     Event.should_terminate true], 1⟩

end threadloop

end ILLIXR

/-! ## `main.cpp`: the cancellable sleep and the timer thread -/

/-- The class `cancellable_sleep` of main.cpp (lines 14-29): its one member,
the flag `_m_terminate`. -/
structure cancellable_sleep where
  _m_terminate : Bool

namespace cancellable_sleep

/-- The object as `main` declares it, with the default member initialiser
`_m_terminate {false}` (main.cpp, lines 28 and 49). -/
def fresh : cancellable_sleep :=
  ⟨false⟩

/-- The function `cancellable_sleep::cancel` (main.cpp, lines 24-26). -/
def cancel (_cs : cancellable_sleep) : cancellable_sleep :=
  ⟨true⟩

/-- The values the thread inside `sleep` reads from the flag of `cs`, when the
main thread calls `cancel()` after `n` of its loads (`cancel_after = some n`)
or never (`none`): load `k` reads the flag of the object as it is then. -/
def reads (cs : cancellable_sleep) (cancel_after : Option Nat) : Nat → Bool :=
  fun k =>
    match cancel_after with
    | some n => if n ≤ k then (cancel cs)._m_terminate else cs._m_terminate
    | none => cs._m_terminate

/-- The length of one chunk, `std::chrono::milliseconds{100}` (main.cpp, line
20), in nanoseconds. -/
def CHUNK : Int := 100 * 1000000

/-- The time point `wake_up_time` (main.cpp, line 18):

    auto wake_up_time = std::chrono::system_clock::now() + duration;

The clock counts nanoseconds in 64 bits.  A duration of `duration` ticks of
`period` nanoseconds each is first converted to nanoseconds, a 64-bit product,
and then added, a 64-bit sum. -/
def wake_up_time (now duration period : Int) : Int :=
  ILLIXR.wrap_int64 (now + ILLIXR.wrap_int64 (duration * period))

/-- The `while` loop of `cancellable_sleep::sleep` (main.cpp, lines 19-21),
entered with `k` loads of the flag already made; the result is the list of the
chunks slept from here on, each with the length given to `sleep_for`, or
`none` when `fuel` evaluations of the condition did not end the loop:

    while (!_m_terminate.load() && std::chrono::system_clock::now() < wake_up_time) {
        std::this_thread::sleep_for(std::chrono::milliseconds{100});
    }

`clock i` is the value of the `i`-th call of `now()`, call `0` being the one
in the initialiser of `wake_up_time`. -/
def sleep_loop (loads : Nat → Bool) (clock : Nat → Int) (wake_up_time : Int) :
    Nat → Nat → Option (List Int)
  | 0, _ => none
  | fuel + 1, k =>
    if loads k then
      some []
    else if clock (k + 1) < wake_up_time then
      (sleep_loop loads clock wake_up_time fuel (k + 1)).map fun slept => CHUNK :: slept
    else
      some []

/-- The function `cancellable_sleep::sleep(duration)` (main.cpp, lines 17-23)
on the object `cs`, for a duration of `duration` ticks of `period`
nanoseconds: the chunks slept and the value returned, which is one more load
of the flag made after the loop. -/
def sleep (cs : cancellable_sleep) (cancel_after : Option Nat) (clock : Nat → Int)
    (duration period : Int) (fuel : Nat) : Option (List Int × Bool) :=
  let wake_up_time := wake_up_time (clock 0) duration period
  (sleep_loop (reads cs cancel_after) clock wake_up_time fuel 0).map fun slept =>
    (slept, reads cs cancel_after (slept.length + 1))

end cancellable_sleep

/-- Who calls `r->stop()`. -/
inductive Caller where
  | signal_handler
  | timer_thread
  | in_process
  deriving DecidableEq, Repr

/-- One step of the shutdown of `main`. -/
inductive MainEvent where
  | sleep_returned (slept : Nat) (cancelled : Bool)
  | r_stop (caller : Caller)
  | wait_returned
  | cs_cancel
  | th_join
  | delete_r
  deriving DecidableEq, Repr

/-- The body of the thread `th` of `main` (main.cpp, lines 50-53), with
`run_duration` a count of seconds and `cs` the object declared on line 49:

    cs.sleep(run_duration);
    r->stop();

`sleep_returned` records the number of chunks slept and the value `sleep`
returned, which the thread does not look at. -/
def timer_thread (cancel_after : Option Nat) (clock : Nat → Int) (run_duration : Int)
    (fuel : Nat) : Option (List MainEvent) :=
  (cancellable_sleep.sleep cancellable_sleep.fresh cancel_after clock run_duration 1000000000
      fuel).map fun res =>
    [MainEvent.sleep_returned res.1.length res.2, MainEvent.r_stop Caller.timer_thread]

/-- The shutdown of `main` (main.cpp, lines 8-12 and 49-61) when the trigger
`first` is the first to call `r->stop()`.

When `first` is the signal handler or an in-process call, the timer thread has
made `n` loads of its flag by the time `main` returns from `r->wait()` and
calls `cs.cancel()`.  When `first` is the timer, nothing has cancelled its
sleep before it returns: the sleep ends when the clock passes the wake-up
time. -/
def shutdown (first : Caller) (n : Nat) (clock : Nat → Int) (run_duration : Int) (fuel : Nat) :
    Option (List MainEvent) :=
  match first with
  | Caller.timer_thread =>
    (timer_thread none clock run_duration fuel).map fun tr =>
      tr ++ [MainEvent.wait_returned, MainEvent.cs_cancel, MainEvent.th_join, MainEvent.delete_r]
  | c =>
    (timer_thread (some n) clock run_duration fuel).map fun tr =>
      [MainEvent.r_stop c, MainEvent.wait_returned, MainEvent.cs_cancel] ++ tr
        ++ [MainEvent.th_join, MainEvent.delete_r]

/-- The callers of `r->stop()` in a shutdown, in order. -/
def stop_calls : List MainEvent → List Caller
  | [] => []
  | MainEvent.r_stop c :: tr => c :: stop_calls tr
  | _ :: tr => stop_calls tr

/-! ## `main.cpp`: the start of `main` -/

/-- The constant `ILLIXR_RUN_DURATION_DEFAULT` (main.cpp, line 4), in seconds. -/
def ILLIXR_RUN_DURATION_DEFAULT : Int := 60

/-- The run duration of `main` (main.cpp, lines 43-47), in seconds:

    getenv("ILLIXR_RUN_DURATION")
      ? std::chrono::seconds{std::stol(std::string{getenv("ILLIXR_RUN_DURATION")})}
      : ILLIXR_RUN_DURATION_DEFAULT

`env` is what `getenv` returns, `none` for a null pointer.  The library
function `std::stol` is a parameter; `stol v = none` says that it throws. -/
def run_duration (stol : String → Option Int) (env : Option String) : Option Int :=
  match env with
  | some v => stol v
  | none => some ILLIXR_RUN_DURATION_DEFAULT

/-- A decimal digit, as `std::stol` reads it in base 10. -/
def digit_value (c : Char) : Option Nat :=
  if '0' ≤ c ∧ c ≤ '9' then some (c.toNat - '0'.toNat) else none

/-- The value of the longest run of decimal digits at the head of a text, with
`acc` the value read so far and `seen` whether a digit was read. -/
def read_digits : List Char → Nat → Bool → Option Nat
  | [], acc, seen => if seen then some acc else none
  | c :: cs, acc, seen =>
    match digit_value c with
    | some d => read_digits cs (10 * acc + d) true
    | none => if seen then some acc else none

/-- The conversion `std::stol` does in base 10 with a 64-bit `long`: leading
white space is skipped, then come an optional sign and the digits up to the
first character that is not one; `none` when there is no digit
(`std::invalid_argument`) or the value does not fit (`std::out_of_range`). -/
def stol_decimal (v : String) : Option Int :=
  let signed : Option Int :=
    match v.data.dropWhile (fun c => c = ' ' ∨ ('\t' ≤ c ∧ c ≤ '\r')) with
    | '-' :: cs => (read_digits cs 0 false).map fun n => -(n : Int)
    | '+' :: cs => (read_digits cs 0 false).map fun n => (n : Int)
    | cs => (read_digits cs 0 false).map fun n => (n : Int)
  match signed with
  | some n => if -(2 ^ 63) ≤ n ∧ n < 2 ^ 63 then some n else none
  | none => none

/-- One step of `main` up to `r->wait()`. -/
inductive StartupEvent where
  | runtime_factory
  | load_so (path : String)
  | signal_sigint
  | stol_throws
  | spawn_timer (seconds : Int)
  | r_wait
  deriving DecidableEq, Repr

/-- The loop of `main` that loads the plugins (main.cpp, lines 34-36), entered
with index `i`; `argc` is the length of `argv`:

    for (int i = 1; i < argc; ++i) {
        r->load_so(argv[i]);
    } -/
def load_loop (argv : List String) (i : Nat) : List StartupEvent :=
  if h : i < argv.length then
    StartupEvent.load_so (argv.get ⟨i, h⟩) :: load_loop argv (i + 1)
  else
    []
termination_by argv.length - i

/-- The function `main` up to `r->wait()` (main.cpp, lines 31-55). -/
def main_startup (stol : String → Option Int) (argv : List String) (env : Option String) :
    List StartupEvent :=
  [StartupEvent.runtime_factory] ++ load_loop argv 1 ++ [StartupEvent.signal_sigint] ++
    match run_duration stol env with
    | some d => [StartupEvent.spawn_timer d, StartupEvent.r_wait]
    | none => [StartupEvent.stol_throws]

/-- The arguments of the `r->load_so` calls, in order. -/
def load_calls : List StartupEvent → List String
  | [] => []
  | StartupEvent.load_so a :: tr => a :: load_calls tr
  | _ :: tr => load_calls tr

/-! ## `pose_prediction/plugin.cpp`

The scalars of Eigen (`float`) are elements of a linear ordered field `α`: the
arithmetic is exact. -/

/-- The type `Eigen::Vector3f`. -/
structure Vector3f (α : Type) where
  x : α
  y : α
  z : α

/-- The type `Eigen::Quaternionf`; the constructor takes `w, x, y, z`. -/
structure Quaternionf (α : Type) where
  w : α
  x : α
  y : α
  z : α

namespace Quaternionf

variable {α : Type} [LinearOrderedField α]

/-- The quaternion `Eigen::Quaternionf::Identity()`. -/
def Identity : Quaternionf α :=
  ⟨1, 0, 0, 0⟩

/-- The product `a * b` of Eigen. -/
def mul (a b : Quaternionf α) : Quaternionf α :=
  ⟨a.w * b.w - a.x * b.x - a.y * b.y - a.z * b.z,
   a.w * b.x + a.x * b.w + a.y * b.z - a.z * b.y,
   a.w * b.y + a.y * b.w + a.z * b.x - a.x * b.z,
   a.w * b.z + a.z * b.w + a.x * b.y - a.y * b.x⟩

/-- The function `squaredNorm()` of Eigen. -/
def squaredNorm (a : Quaternionf α) : α :=
  a.w * a.w + a.x * a.x + a.y * a.y + a.z * a.z

/-- The function `conjugate()` of Eigen. -/
def conjugate (a : Quaternionf α) : Quaternionf α :=
  ⟨a.w, -a.x, -a.y, -a.z⟩

/-- The function `inverse()` of Eigen: the conjugate divided by the squared
norm, and the zero quaternion when the squared norm is not positive. -/
def inverse (a : Quaternionf α) : Quaternionf α :=
  if 0 < squaredNorm a then
    ⟨a.w / squaredNorm a, -a.x / squaredNorm a, -a.y / squaredNorm a, -a.z / squaredNorm a⟩
  else
    ⟨0, 0, 0, 0⟩

end Quaternionf

/-- The type `pose_type` (data_format.hpp, lines 39-43); `time` counts the
ticks of the system clock. -/
structure pose_type (α : Type) where
  time : Int
  position : Vector3f α
  orientation : Quaternionf α

/-- The members of `pose_prediction_impl` (plugin.cpp, lines 80-84).  `_m_pose`
and `_m_true_pose` are what the readers of "slow_pose" and "true_pose" yield
now, `none` for a null pointer. -/
structure pose_prediction_impl (α : Type) where
  _m_pose : Option (pose_type α)
  _m_true_pose : Option (pose_type α)
  offset : Quaternionf α

namespace pose_prediction_impl

variable {α : Type} [LinearOrderedField α]

/-- The function `apply_offset` (plugin.cpp, lines 46-49). -/
def apply_offset (s : pose_prediction_impl α) (orientation : Quaternionf α) : Quaternionf α :=
  Quaternionf.mul orientation s.offset

/-- The function `set_offset` (plugin.cpp, lines 30-44). -/
def set_offset (s : pose_prediction_impl α) (raw_o_times_offset : Quaternionf α) :
    pose_prediction_impl α :=
  let raw_o := Quaternionf.mul raw_o_times_offset (Quaternionf.inverse s.offset)
  { s with offset := Quaternionf.inverse raw_o }

/-- The function `correct_pose` (plugin.cpp, lines 86-104). -/
def correct_pose (s : pose_prediction_impl α) (pose : pose_type α) : pose_type α :=
  let swapped_pose := pose
  let swapped_pose :=
    { swapped_pose with position := { swapped_pose.position with x := -pose.position.y } }
  let swapped_pose :=
    { swapped_pose with position := { swapped_pose.position with y := pose.position.z } }
  let swapped_pose :=
    { swapped_pose with position := { swapped_pose.position with z := -pose.position.x } }
  let raw_o : Quaternionf α :=
    ⟨pose.orientation.w, -pose.orientation.y, pose.orientation.z, -pose.orientation.x⟩
  { swapped_pose with orientation := apply_offset s raw_o }

/-- The function `get_fast_pose` (plugin.cpp, lines 16-21).  `default_pose` is
the value of `pose_type{}`. -/
def get_fast_pose (s : pose_prediction_impl α) (default_pose : pose_type α) : pose_type α :=
  let pose_ptr := s._m_pose
  correct_pose s (match pose_ptr with
    | some pose => pose
    | none => default_pose)

/-- The function `get_true_pose` (plugin.cpp, lines 23-28). -/
def get_true_pose (s : pose_prediction_impl α) (default_pose : pose_type α) : pose_type α :=
  let pose_ptr := s._m_true_pose
  correct_pose s (match pose_ptr with
    | some pose => pose
    | none => default_pose)

end pose_prediction_impl

/-! ## `timewarp_gl/plugin.cpp` -/

/-- What the loop thread of `timewarp_gl` sees of the plugin: the latest value
of the topic "eyebuffer" (`none` when `get_latest_ro()` is null), the number of
frames warped, and whether `assert(most_recent_frame)` has failed. -/
structure timewarp_gl where
  eyebuffer : Option Nat
  warped : Nat
  assert_failed : Bool
  deriving DecidableEq, Repr

namespace timewarp_gl

/-- The function `warp` (plugin.cpp, lines 430-441 and on): it reads the latest
frame and asserts that it is not null before it uses it. -/
def warp (s : timewarp_gl) : timewarp_gl :=
  match s.eyebuffer with
  | some _ => { s with warped := s.warped + 1 }
  | none => { s with assert_failed := true }

/-- The overrides of `timewarp_gl` (plugin.cpp, lines 296-316).  The sleep at
the head of `_p_should_skip` and the set-up of the graphics context do not
change what is recorded here. -/
def hooks : ILLIXR.Hooks timewarp_gl where
  _p_should_skip := fun s =>
    (if s.eyebuffer.isSome then ILLIXR.skip_option.run else ILLIXR.skip_option.skip_and_yield, s)
  _p_thread_setup := fun s => s
  _p_one_iteration := fun s => warp s

/-- The conversion `(GLuint)` of a count that is not negative. -/
def to_GLuint (n : Nat) : Nat :=
  n % 2 ^ 32

/-- The member `num_distortion_vertices` as `BuildTimewarp` sets it
(plugin.cpp, line 154), for `W = eyeTilesWide` and `H = eyeTilesHigh`. -/
def num_distortion_vertices (W H : Nat) : Nat :=
  to_GLuint ((H + 1) * (W + 1))

/-- The member `num_distortion_indices` as `BuildTimewarp` sets it
(plugin.cpp, line 155). -/
def num_distortion_indices (W H : Nat) : Nat :=
  to_GLuint (H * W * 6)

/-- The six stores of the loop body of `BuildTimewarp` for the tile `(x, y)`
(plugin.cpp, lines 166-174), each a slot and the value stored. -/
def tile_stores (W y x : Nat) : List (Nat × Nat) :=
  let offset := (y * W + x) * 6
  [(offset + 0, to_GLuint ((y + 0) * (W + 1) + (x + 0))),
   (offset + 1, to_GLuint ((y + 1) * (W + 1) + (x + 0))),
   (offset + 2, to_GLuint ((y + 0) * (W + 1) + (x + 1))),
   (offset + 3, to_GLuint ((y + 0) * (W + 1) + (x + 1))),
   (offset + 4, to_GLuint ((y + 1) * (W + 1) + (x + 0))),
   (offset + 5, to_GLuint ((y + 1) * (W + 1) + (x + 1)))]

/-- The stores of the two nested loops of `BuildTimewarp` (plugin.cpp, lines
162-176), in the order they are made. -/
def index_stores (W H : Nat) : List (Nat × Nat) :=
  (List.range H).flatMap fun y => (List.range W).flatMap fun x => tile_stores W y x

/-- One store into an array whose slots hold `none` until written. -/
def store (mem : Nat → Option Nat) (w : Nat × Nat) : Nat → Option Nat :=
  fun i => if i = w.1 then some w.2 else mem i

/-- The array `distortion_indices` after the loops, starting from the memory
`malloc` returned. -/
def distortion_indices (W H : Nat) : Nat → Option Nat :=
  (index_stores W H).foldl store (fun _ => none)

end timewarp_gl

/-! ## Concrete inputs -/

/-- A pose predictor whose offset is the half turn about the `x` axis. -/
def turned_predictor : pose_prediction_impl ℚ :=
  ⟨none, none, ⟨0, 1, 0, 0⟩⟩

/-- The plugin `timewarp_gl` started before any frame is published. -/
def before_first_frame : timewarp_gl :=
  ⟨none, 0, false⟩

/-! ## The loop thread: `thread_main` -/

namespace ILLIXR

theorem passes_iterations (n : Nat) : iterations (passes n) = n := by
  induction n with
  | zero => rfl
  | succ n ih =>
    have hstep : iterations (passes (n + 1)) = iterations (passes n) + 1 := by
      simp [passes, iterations]
    omega

theorem passes_setup_free (n : Nat) : (passes n).count Event.thread_setup = 0 := by
  induction n with
  | zero => rfl
  | succ n ih => simpa [passes] using ih

theorem passes_policy_free (n : Nat) : policy_calls (passes n) = [] := by
  induction n with
  | zero => rfl
  | succ n ih => simpa [passes, policy_calls] using ih

/-- The loop, entered after `k` loads, when the next `n` loads read `false` and
either the bound is reached (`n = fuel`) or load `k + n` reads `true`. -/
theorem thread_loop_run {σ : Type} (h : Hooks σ) (loads : Nat → Bool) :
    ∀ (n fuel k : Nat) (s : σ), n ≤ fuel →
      (∀ j, j < n → loads (k + j) = false) →
      (n < fuel → loads (k + n) = true) →
      (thread_loop h loads fuel k s).state = (h._p_one_iteration)^[n] s ∧
      (thread_loop h loads fuel k s).trace
        = passes n ++ (if n < fuel then [Event.should_terminate true] else []) ∧
      (thread_loop h loads fuel k s).finished = decide (n < fuel) := by
  intro n
  induction n with
  | zero =>
    intro fuel k s _ _ hstop
    cases fuel with
    | zero => simp [thread_loop, passes]
    | succ fuel =>
      have hk : loads k = true := by simpa using hstop (Nat.succ_pos fuel)
      simp [thread_loop, passes, hk]
  | succ n ih =>
    intro fuel k s hn hfalse hstop
    cases fuel with
    | zero => omega
    | succ fuel =>
      have hk : loads k = false := by simpa using hfalse 0 (Nat.succ_pos n)
      have hfalse1 : ∀ j, j < n → loads (k + 1 + j) = false := by
        intro j hj
        have := hfalse (j + 1) (by omega)
        rwa [show k + 1 + j = k + (j + 1) by omega]
      have hstop1 : n < fuel → loads (k + 1 + n) = true := by
        intro hlt
        have := hstop (by omega)
        rwa [show k + 1 + n = k + (n + 1) by omega]
      obtain ⟨h1, h2, h3⟩ := ih fuel (k + 1) (h._p_one_iteration s) (by omega) hfalse1 hstop1
      refine ⟨?_, ?_, ?_⟩
      · simp [thread_loop, hk, h1, Function.iterate_succ_apply]
      · simp [thread_loop, hk, h2, passes]
      · simp [thread_loop, hk, h3]

/-- Every sequence of loads and every bound has its number of passes: the loads
before it read `false`, and it is the bound or the first load reading `true`. -/
theorem passes_exist (loads : Nat → Bool) :
    ∀ fuel : Nat, ∃ n, n ≤ fuel ∧ (∀ j, j < n → loads j = false) ∧
      (n < fuel → loads n = true) := by
  intro fuel
  induction fuel with
  | zero => exact ⟨0, le_refl _, by intro j hj; omega, by intro hlt; omega⟩
  | succ fuel ih =>
    obtain ⟨n, hn, hfalse, hstop⟩ := ih
    by_cases hlt : n < fuel
    · exact ⟨n, by omega, hfalse, fun _ => hstop hlt⟩
    · have hnf : n = fuel := by omega
      subst hnf
      by_cases hload : loads n = true
      · exact ⟨n, by omega, hfalse, fun _ => hload⟩
      · refine ⟨n + 1, le_refl _, ?_, by intro hlt1; omega⟩
        intro j hj
        by_cases hjn : j < n
        · exact hfalse j hjn
        · have hjeq : j = n := by omega
          subst hjeq
          simpa using hload

/-- The loop thread does not depend on the throttle policy. -/
theorem thread_loop_policy_irrelevant {σ : Type} (h : Hooks σ) (p : σ → skip_option × σ)
    (loads : Nat → Bool) :
    ∀ (fuel k : Nat) (s : σ),
      thread_loop { h with _p_should_skip := p } loads fuel k s = thread_loop h loads fuel k s := by
  intro fuel
  induction fuel with
  | zero => intro k s; rfl
  | succ fuel ih =>
    intro k s
    simp only [thread_loop]
    rw [ih]

/-- C1, evaluated on the code.  With a throttle policy that always answers
`skip_and_yield` and a flag that reads `false`, `false`, `true`, the loop
thread runs two iterations and never asks the policy: `thread_main` does not
call `_p_should_skip()`. -/
theorem thread_main_never_consults_policy :
    (always_yield._p_should_skip 0).1 = skip_option.skip_and_yield ∧
    (thread_main always_yield set_after_two 3 0).trace
      = [Event.thread_setup,
         Event.should_terminate false, Event.one_iteration,
         Event.should_terminate false, Event.one_iteration,
         Event.should_terminate true] ∧
    (thread_main always_yield set_after_two 3 0).state = 2 ∧
    (thread_main always_yield set_after_two 3 0).finished = true ∧
    policy_calls (thread_main always_yield set_after_two 3 0).trace = [] := by
  refine ⟨rfl, rfl, rfl, rfl, rfl⟩

/-- The run of `thread_main` determined by the number `n` of passes. -/
theorem thread_main_run {σ : Type} (h : Hooks σ) (loads : Nat → Bool) (s : σ) (fuel n : Nat)
    (hn : n ≤ fuel) (hfalse : ∀ j, j < n → loads j = false) (hstop : n < fuel → loads n = true) :
    (thread_main h loads fuel s).trace
      = Event.thread_setup :: (passes n ++ if n < fuel then [Event.should_terminate true] else []) ∧
    (thread_main h loads fuel s).finished = decide (n < fuel) ∧
    (thread_main h loads fuel s).state = (h._p_one_iteration)^[n] (h._p_thread_setup s) := by
  obtain ⟨h1, h2, h3⟩ := thread_loop_run h loads n fuel 0 (h._p_thread_setup s) hn
    (by intro j hj; simpa using hfalse j hj) (by intro hlt; simpa using hstop hlt)
  exact ⟨by simp [thread_main, h2], by simp [thread_main, h3], by simp [thread_main, h1]⟩

/-- C2.  A run of `thread_main` in which the first `n` loads of the flag read
`false` and, unless the bound `fuel` on the number of loads is reached first
(`n = fuel`), load `n` reads `true`: the calls are one `_p_thread_setup()`,
then `n` times a load that read `false` followed by `_p_one_iteration()`, then,
when the run is over, the load that read `true` and nothing after it.  The
run is over whenever `n < fuel`, and the hooks have then been applied in that
order to the plugin state.  Every run has such an `n` (`passes_exist`). -/
theorem thread_main_trace {σ : Type} (h : Hooks σ) (loads : Nat → Bool) (s : σ) (fuel n : Nat)
    (hn : n ≤ fuel) (hfalse : ∀ j, j < n → loads j = false) (hstop : n < fuel → loads n = true) :
    (thread_main h loads fuel s).trace
      = Event.thread_setup :: (passes n ++ if n < fuel then [Event.should_terminate true] else []) ∧
    (thread_main h loads fuel s).finished = decide (n < fuel) ∧
    (thread_main h loads fuel s).state = (h._p_one_iteration)^[n] (h._p_thread_setup s) ∧
    (thread_main h loads fuel s).trace.count Event.thread_setup = 1 ∧
    iterations (thread_main h loads fuel s).trace = n := by
  obtain ⟨htrace, hfin, hstate⟩ := thread_main_run h loads s fuel n hn hfalse hstop
  refine ⟨htrace, hfin, hstate, ?_, ?_⟩
  · rw [htrace]
    have := passes_setup_free n
    split <;> simp [List.count_cons, List.count_append, this]
  · rw [htrace]
    have := passes_iterations n
    unfold iterations at this ⊢
    split <;> simp [List.count_cons, List.count_append, this]

/-- C2 at a concrete run: two loads read `false`, the third reads `true`. -/
theorem thread_main_trace_witness :
    (thread_main always_yield set_after_two 5 7).trace
      = Event.thread_setup :: (passes 2 ++ if 2 < 5 then [Event.should_terminate true] else []) ∧
    (thread_main always_yield set_after_two 5 7).finished = decide (2 < 5) ∧
    (thread_main always_yield set_after_two 5 7).state
      = (always_yield._p_one_iteration)^[2] (always_yield._p_thread_setup 7) ∧
    (thread_main always_yield set_after_two 5 7).trace.count Event.thread_setup = 1 ∧
    iterations (thread_main always_yield set_after_two 5 7).trace = 2 :=
  thread_main_trace always_yield set_after_two 7 5 2 (by decide)
    (by intro j hj; simp [set_after_two]; omega) (by intro _; simp [set_after_two])

/-! ## The sleep in chunks: `reliable_sleep` -/

/-- The quantum is within `0` and `MAX_TIMEOUT` whatever the deadline. -/
theorem sleep_quantum_range (D : Int) : 0 ≤ sleep_quantum D ∧ sleep_quantum D ≤ MAX_TIMEOUT := by
  unfold sleep_quantum to_int64 to_uint64 SLEEP_SAFETY_FACTOR MAX_TIMEOUT
  split <;> omega

theorem sleep_quantum_future (D : Int) (h0 : 0 ≤ D) (hhi : D < 2 ^ 63) :
    sleep_quantum D = min (D / 100) MAX_TIMEOUT := by
  unfold sleep_quantum to_int64 to_uint64 SLEEP_SAFETY_FACTOR MAX_TIMEOUT
  split <;> omega

theorem sleep_quantum_past (D : Int) (h0 : D < 0) (hlo : -(2 ^ 63) ≤ D) :
    sleep_quantum D = MAX_TIMEOUT := by
  unfold sleep_quantum to_int64 to_uint64 SLEEP_SAFETY_FACTOR MAX_TIMEOUT
  split <;> omega

/-- C3.  For a deadline `D` nanoseconds away, `D` a signed 64-bit count: when
`D ≥ 0` the quantum is `min (D / 100) (100 ms)`, with integer division by
`SLEEP_SAFETY_FACTOR = 100`; for every `D`, negative ones included, the
quantum lies between `0` and `MAX_TIMEOUT = 100 ms`.  (For `D < 0` the
unsigned division gives a huge quotient and the quantum is `MAX_TIMEOUT`.) -/
theorem sleep_quantum_bounds (D : Int) (hlo : -(2 ^ 63) ≤ D) (hhi : D < 2 ^ 63) :
    (0 ≤ D → sleep_quantum D = min (D / (SLEEP_SAFETY_FACTOR : Int)) MAX_TIMEOUT) ∧
    0 ≤ sleep_quantum D ∧
    sleep_quantum D ≤ MAX_TIMEOUT ∧
    (D < 0 → sleep_quantum D = MAX_TIMEOUT) ∧
    SLEEP_SAFETY_FACTOR = 100 ∧ MAX_TIMEOUT = 100000000 := by
  refine ⟨?_, (sleep_quantum_range D).1, (sleep_quantum_range D).2, ?_, rfl, rfl⟩
  · intro h0
    simpa [SLEEP_SAFETY_FACTOR] using sleep_quantum_future D h0 hhi
  · intro h0
    exact sleep_quantum_past D h0 hlo

/-- C3 at a deadline five seconds away: the quantum is fifty milliseconds. -/
theorem sleep_quantum_bounds_witness :
    sleep_quantum 5000000000 = 50000000 ∧
    (0 ≤ (5000000000 : Int) →
      sleep_quantum 5000000000 = min (5000000000 / (SLEEP_SAFETY_FACTOR : Int)) MAX_TIMEOUT) ∧
    0 ≤ sleep_quantum 5000000000 ∧
    sleep_quantum 5000000000 ≤ MAX_TIMEOUT ∧
    ((5000000000 : Int) < 0 → sleep_quantum 5000000000 = MAX_TIMEOUT) ∧
    SLEEP_SAFETY_FACTOR = 100 ∧ MAX_TIMEOUT = 100000000 :=
  ⟨by decide, sleep_quantum_bounds 5000000000 (by decide) (by decide)⟩

theorem chunks_append (a b : List SleepEvent) : chunks (a ++ b) = chunks a ++ chunks b := by
  induction a with
  | nil => rfl
  | cons e a ih => cases e <;> simp [chunks, ih]

theorem chunks_sleep_passes (clock : Nat → Int) (q : Int) :
    ∀ (n k : Nat), chunks (sleep_passes clock q k n) = List.replicate n q := by
  intro n
  induction n with
  | zero => intro k; rfl
  | succ n ih => intro k; simp [sleep_passes, chunks, ih, List.replicate_succ]

/-- The shape of every run of the loop: some `n` passes that each follow a load
reading `false` and sleep one quantum, then calls that sleep nothing. -/
theorem reliable_sleep_loop_shape (loads : Nat → Bool) (clock : Nat → Int) (start D q : Int) :
    ∀ (fuel k : Nat), ∃ (n : Nat) (rest : List SleepEvent),
      n ≤ fuel ∧
      (reliable_sleep_loop loads clock start D q fuel k).trace = sleep_passes clock q k n ++ rest ∧
      chunks rest = [] ∧
      (∀ j, j < n → loads (k + j) = false) := by
  intro fuel
  induction fuel with
  | zero => intro k; exact ⟨0, [], le_refl _, rfl, rfl, by intro j hj; omega⟩
  | succ fuel ih =>
    intro k
    by_cases hk : loads k = true
    · exact ⟨0, [SleepEvent.should_terminate true], by omega,
        by simp [reliable_sleep_loop, hk, sleep_passes], rfl, by intro j hj; omega⟩
    · have hk0 : loads k = false := by simpa using hk
      by_cases ht : wrap_int64 (clock (k + 1) - start) < D
      · obtain ⟨n, rest, hn, htr, hrest, hfalse⟩ := ih (k + 1)
        refine ⟨n + 1, rest, by omega, ?_, hrest, ?_⟩
        · simp [reliable_sleep_loop, hk0, ht, htr, sleep_passes]
        · intro j hj
          cases j with
          | zero => simpa using hk0
          | succ j =>
            have := hfalse j (by omega)
            rwa [show k + (j + 1) = k + 1 + j by omega]
      · exact ⟨0, [SleepEvent.should_terminate false, SleepEvent.now (clock (k + 1))], by omega,
          by simp [reliable_sleep_loop, hk0, ht, sleep_passes], rfl, by intro j hj; omega⟩

/-- Once a load reads `true` the loop is left: with `m` loads to go before
one that reads `true`, at most `m` more chunks are slept. -/
theorem reliable_sleep_loop_cancel (loads : Nat → Bool) (clock : Nat → Int) (start D q : Int) :
    ∀ (fuel k m : Nat), loads (k + m) = true → m < fuel →
      (reliable_sleep_loop loads clock start D q fuel k).finished = true ∧
      (chunks (reliable_sleep_loop loads clock start D q fuel k).trace).length ≤ m := by
  intro fuel
  induction fuel with
  | zero => intro k m _ hm; omega
  | succ fuel ih =>
    intro k m hload hm
    by_cases hk : loads k = true
    · simp [reliable_sleep_loop, hk, chunks]
    · have hk0 : loads k = false := by simpa using hk
      by_cases ht : wrap_int64 (clock (k + 1) - start) < D
      · cases m with
        | zero => simp [hk0] at hload
        | succ m =>
          obtain ⟨h1, h2⟩ := ih (k + 1) m (by rwa [show k + 1 + m = k + (m + 1) by omega]) (by omega)
          refine ⟨by simp [reliable_sleep_loop, hk0, ht, h1], ?_⟩
          simp [reliable_sleep_loop, hk0, ht, chunks]
          omega
      · simp [reliable_sleep_loop, hk0, ht, chunks]

/-- A count inside the 64-bit range is not changed by the reduction. -/
theorem wrap_int64_of_range (x : Int) (hlo : -(2 ^ 63) ≤ x) (hhi : x < 2 ^ 63) :
    wrap_int64 x = x := by
  unfold wrap_int64 to_int64 to_uint64
  split <;> omega

/-- C4 as stated fails in its last clause, at two calls whose flag reads
`false`, `false`, `true`.  At the first the deadline is the least time point,
far in the past, and the clock moves forward: `stop - start` leaves the 64-bit
range, `sleep_duration` comes out positive, and two chunks of 100 ms are slept.
At the second the deadline is 500 ns before `start`, and the clock is set back
by a microsecond after `start` is read: `now() - start` is below
`sleep_duration`, and two chunks are slept. -/
theorem reliable_sleep_past_deadline_counterexample :
    ((-9223372036854775808 : Int) ≤ epoch_clock 0 ∧ epoch_clock 0 ≤ epoch_clock 1 ∧
      chunks (reliable_sleep set_after_two epoch_clock (-9223372036854775808) 5).trace
        = [100000000, 100000000]) ∧
    ((1700000000000000500 : Int) ≤ stepped_back_clock 0 ∧
      chunks (reliable_sleep set_after_two stepped_back_clock 1700000000000000500 5).trace
        = [100000000, 100000000]) := by
  decide

/-- C4, amended.  For every deadline `stop`, every sequence of flag values and
clock readings, and every bound `fuel` on the number of passes:

* the quantum is between `0` and `MAX_TIMEOUT`;
* the calls are the reading of `start`, then `n` passes that each load the
  flag, read `false`, read the clock and sleep one quantum, then calls that
  sleep nothing: every chunk follows a load of the flag that read `false`;
* if load `k` of the flag reads `true`, the sleep returns and has slept at
  most `k` chunks, whatever the deadline: a flag set during chunk `k - 1` lets
  no chunk after that one start;
* if the flag is set on entry, it returns without sleeping a chunk;
* if the deadline is not after `start`, it returns without sleeping a chunk
  provided that `stop - start` and the first `now() - start` stay inside the
  64-bit range and the clock has not gone back since `start` was read. -/
theorem reliable_sleep_cancellation (loads : Nat → Bool) (clock : Nat → Int) (stop : Int)
    (fuel : Nat) :
    (0 ≤ sleep_quantum (wrap_int64 (stop - clock 0)) ∧
      sleep_quantum (wrap_int64 (stop - clock 0)) ≤ MAX_TIMEOUT) ∧
    (∃ (n : Nat) (rest : List SleepEvent),
      n ≤ fuel ∧
      (reliable_sleep loads clock stop fuel).trace
        = SleepEvent.now (clock 0)
            :: (sleep_passes clock (sleep_quantum (wrap_int64 (stop - clock 0))) 0 n ++ rest) ∧
      chunks rest = [] ∧
      chunks (reliable_sleep loads clock stop fuel).trace
        = List.replicate n (sleep_quantum (wrap_int64 (stop - clock 0))) ∧
      (∀ j, j < n → loads j = false)) ∧
    (∀ k, loads k = true → k < fuel →
      (reliable_sleep loads clock stop fuel).finished = true ∧
      (chunks (reliable_sleep loads clock stop fuel).trace).length ≤ k) ∧
    (0 < fuel → loads 0 = true →
      (reliable_sleep loads clock stop fuel).finished = true ∧
      chunks (reliable_sleep loads clock stop fuel).trace = []) ∧
    (0 < fuel → stop ≤ clock 0 → -(2 ^ 63) ≤ stop - clock 0 →
      clock 0 ≤ clock 1 → clock 1 - clock 0 < 2 ^ 63 →
      (reliable_sleep loads clock stop fuel).finished = true ∧
      chunks (reliable_sleep loads clock stop fuel).trace = []) := by
  refine ⟨sleep_quantum_range _, ?_, ?_, ?_, ?_⟩
  · obtain ⟨n, rest, hn, htr, hrest, hfalse⟩ :=
      reliable_sleep_loop_shape loads clock (clock 0) (wrap_int64 (stop - clock 0))
        (sleep_quantum (wrap_int64 (stop - clock 0))) fuel 0
    refine ⟨n, rest, hn, ?_, hrest, ?_, ?_⟩
    · simp [reliable_sleep, htr]
    · simp [reliable_sleep, htr, chunks, chunks_append, chunks_sleep_passes, hrest]
    · intro j hj
      simpa using hfalse j hj
  · intro k hk hfuel
    obtain ⟨h1, h2⟩ :=
      reliable_sleep_loop_cancel loads clock (clock 0) (wrap_int64 (stop - clock 0))
        (sleep_quantum (wrap_int64 (stop - clock 0))) fuel 0 k (by simpa using hk) hfuel
    exact ⟨by simpa [reliable_sleep] using h1, by simpa [reliable_sleep, chunks] using h2⟩
  · intro hfuel h0
    cases fuel with
    | zero => omega
    | succ fuel => simp [reliable_sleep, reliable_sleep_loop, h0, chunks]
  · intro hfuel hpast hlo hclock hhi
    cases fuel with
    | zero => omega
    | succ fuel =>
      have hD : wrap_int64 (stop - clock 0) = stop - clock 0 :=
        wrap_int64_of_range _ hlo (by omega)
      have hE : wrap_int64 (clock (0 + 1) - clock 0) = clock 1 - clock 0 :=
        wrap_int64_of_range _ (by simp only [Nat.zero_add]; omega)
          (by simp only [Nat.zero_add]; omega)
      have hnot : ¬ (wrap_int64 (clock (0 + 1) - clock 0) < wrap_int64 (stop - clock 0)) := by
        rw [hD, hE]; omega
      by_cases h0 : loads 0 = true
      · simp [reliable_sleep, reliable_sleep_loop, h0, chunks]
      · have h0f : loads 0 = false := by simpa using h0
        simp [reliable_sleep, reliable_sleep_loop, h0f, hnot, chunks]

/-- C4, amended, at concrete calls.  With a deadline a thousand seconds away
and the flag set during the second chunk, two chunks of 100 ms are slept and
the call returns.  With a deadline 500 ns before `start` no chunk is slept. -/
theorem reliable_sleep_cancellation_witness :
    chunks (reliable_sleep set_after_two microsecond_clock 1000000000000 5).trace
      = [100000000, 100000000] ∧
    ((reliable_sleep set_after_two microsecond_clock 1000000000000 5).finished = true ∧
      (chunks (reliable_sleep set_after_two microsecond_clock 1000000000000 5).trace).length
        ≤ 2) ∧
    ((reliable_sleep set_after_two epoch_clock 1699999999999999500 5).finished = true ∧
      chunks (reliable_sleep set_after_two epoch_clock 1699999999999999500 5).trace = []) := by
  refine ⟨by decide, ?_, ?_⟩
  · exact (reliable_sleep_cancellation set_after_two microsecond_clock 1000000000000 5).2.2.1 2
      (by decide) (by decide)
  · exact (reliable_sleep_cancellation set_after_two epoch_clock 1699999999999999500 5).2.2.2.2
      (by decide) (by decide) (by decide) (by decide) (by decide)

/-! ## The object: `start`, `stop`, the destructor -/

namespace threadloop

variable {σ : Type}

/-- The number of passes the loop thread of a handle makes before it reads
`true`, when `n` of its loads come before the store. -/
theorem observed_first_true (b : Bool) (n : Nat) :
    (∀ j, j < (if b then 0 else n) → observed b true n j = false) ∧
    observed b true n (if b then 0 else n) = true := by
  cases b <;> simp [observed]

/-- Joining, once the flag is set, returns: the loop thread makes its remaining
passes, reads `true` and leaves `thread_main`. -/
theorem join_after_store (h : Hooks σ) (n : Nat) (s : threadloop σ) (b : Bool)
    (hthread : s._m_thread = thread.joinable b) (hflag : s._m_terminate = true) :
    join h n s = Except.ok
      { s with
        plugin := (h._p_one_iteration)^[if b then 0 else n] (h._p_thread_setup s.plugin),
        _m_thread := thread.not_joinable,
        log := s.log ++ Event.thread_setup
          :: (passes (if b then 0 else n) ++ [Event.should_terminate true]),
        joins := s.joins + 1 } := by
  have hm : (if b then 0 else n) < n + 1 := by split <;> omega
  obtain ⟨hfalse, htrue⟩ := observed_first_true b n
  obtain ⟨h1, h2, h3⟩ :=
    thread_main_run h (observed b true n) s.plugin (n + 1) (if b then 0 else n)
      (by omega) hfalse (fun _ => htrue)
  simp only [hm, if_true, decide_True] at h1 h2
  simp only [join, hthread, hflag, h1, h2, h3, if_true]

theorem join_not_joinable (h : Hooks σ) (n : Nat) (s : threadloop σ)
    (hthread : s._m_thread = thread.not_joinable) :
    join h n s = Except.error Fault.system_error := by
  simp only [join, hthread]

/-- What `stop` does to a started loop. -/
theorem stop_joinable (h : Hooks σ) (n : Nat) (s : threadloop σ) (b : Bool)
    (hthread : s._m_thread = thread.joinable b) :
    stop h n s = Except.ok
      { plugin := (h._p_one_iteration)^[if b then 0 else n] (h._p_thread_setup s.plugin),
        _m_terminate := true,
        _m_thread := thread.not_joinable,
        log := s.log ++ Event.thread_setup
          :: (passes (if b then 0 else n) ++ [Event.should_terminate true]),
        joins := s.joins + 1 } := by
  have := join_after_store h n (store_terminate s) b hthread rfl
  simpa [stop, store_terminate] using this

theorem stop_not_joinable (h : Hooks σ) (n : Nat) (s : threadloop σ)
    (hthread : s._m_thread = thread.not_joinable) :
    stop h n s = Except.error Fault.system_error :=
  join_not_joinable h n (store_terminate s) hthread

/-- A `stop` that returned was called on a joinable handle. -/
theorem stop_returned (h : Hooks σ) (n : Nat) (s s1 : threadloop σ)
    (hstop : stop h n s = Except.ok s1) :
    ∃ b, s._m_thread = thread.joinable b ∧
      s1 = { plugin := (h._p_one_iteration)^[if b then 0 else n] (h._p_thread_setup s.plugin),
             _m_terminate := true,
             _m_thread := thread.not_joinable,
             log := s.log ++ Event.thread_setup
               :: (passes (if b then 0 else n) ++ [Event.should_terminate true]),
             joins := s.joins + 1 } := by
  cases hthread : s._m_thread with
  | not_joinable =>
    rw [stop_not_joinable h n s hthread] at hstop
    cases hstop
  | joinable b =>
    rw [stop_joinable h n s b hthread] at hstop
    exact ⟨b, rfl, (Except.ok.inj hstop).symm⟩

/-- A `start` that returned was called on a handle that was not joinable. -/
theorem start_returned (s s1 : threadloop σ) (hstart : start s = Except.ok s1) :
    s._m_thread = thread.not_joinable ∧
    s1 = { s with _m_thread := thread.joinable s._m_terminate } := by
  cases hthread : s._m_thread with
  | not_joinable =>
    simp only [start, hthread] at hstart
    exact ⟨rfl, (Except.ok.inj hstart).symm⟩
  | joinable b =>
    simp only [start, hthread] at hstart
    cases hstart

/-- C6.  On a loop that has been started (its handle is joinable), `stop()` is
the store of `true` into the flag followed by the join; it returns, and then
`should_terminate()` is `true`, the handle is no longer joinable, one more
join has completed, and the loop thread has left `thread_main`: its calls,
appended to the log, end with the load that read `true`. -/
theorem stop_stores_then_joins (h : Hooks σ) (n : Nat) (s : threadloop σ) (b : Bool)
    (hstarted : s._m_thread = thread.joinable b) :
    stop h n s = join h n (store_terminate s) ∧
    should_terminate (store_terminate s) = true ∧
    ∃ s1, stop h n s = Except.ok s1 ∧
      should_terminate s1 = true ∧
      s1._m_thread = thread.not_joinable ∧
      s1.joins = s.joins + 1 ∧
      ∃ m, m ≤ n ∧
        s1.log = s.log ++ Event.thread_setup :: (passes m ++ [Event.should_terminate true]) := by
  refine ⟨rfl, rfl, _, stop_joinable h n s b hstarted, rfl, rfl, rfl, (if b then 0 else n), ?_, rfl⟩
  split <;> omega

/-- C6 at a concrete loop: started, then stopped after two passes. -/
theorem stop_stores_then_joins_witness :
    start (construct (0 : Nat)) = Except.ok started_loop ∧
    stop always_yield 2 started_loop = join always_yield 2 (store_terminate started_loop) ∧
    should_terminate (store_terminate started_loop) = true ∧
    ∃ s1, stop always_yield 2 started_loop = Except.ok s1 ∧
      should_terminate s1 = true ∧
      s1._m_thread = thread.not_joinable ∧
      s1.joins = started_loop.joins + 1 ∧
      ∃ m, m ≤ 2 ∧
        s1.log = started_loop.log
          ++ Event.thread_setup :: (passes m ++ [Event.should_terminate true]) :=
  ⟨rfl, stop_stores_then_joins always_yield 2 started_loop false rfl⟩

/-- C7 as stated fails: a loop is constructed, started and stopped; the second
`stop()` does not return normally, it ends in `std::system_error`. -/
theorem double_stop_counterexample :
    run_ops always_yield [Op.start, Op.stop 2] (construct 0) = Except.ok stopped_loop ∧
    run_ops always_yield [Op.start, Op.stop 2, Op.stop 0] (construct 0)
      = Except.error Fault.system_error :=
  ⟨rfl, rfl⟩

/-- C7, amended.  `stop()` has no guard of its own: on every loop on which
`stop()` has returned (the loop is then stopped), a second call stores `true`
again and joins a handle that is no longer joinable, which throws
`std::system_error`.  The guard against stopping twice is in the destructor,
which skips `stop()` when the flag is set and then returns normally. -/
theorem second_stop_throws (h : Hooks σ) (n m k : Nat) (s s1 : threadloop σ)
    (hstop : stop h n s = Except.ok s1) :
    phase s1 = Phase.stopped ∧
    stop h m s1 = Except.error Fault.system_error ∧
    destructor h m k s1 = Except.ok s1 := by
  obtain ⟨b, _, hs1⟩ := stop_returned h n s s1 hstop
  subst hs1
  exact ⟨rfl, stop_not_joinable h m _ rfl, rfl⟩

/-- C7, amended, at a concrete loop. -/
theorem second_stop_throws_witness :
    stop always_yield 2 started_loop = Except.ok stopped_loop ∧
    phase stopped_loop = Phase.stopped ∧
    stop always_yield 0 stopped_loop = Except.error Fault.system_error ∧
    destructor always_yield 0 1 stopped_loop = Except.ok stopped_loop :=
  ⟨rfl, second_stop_throws always_yield 2 0 1 started_loop stopped_loop rfl⟩

/-- The destructor on a started loop whose flag is unset: it ends in
`std::terminate` as soon as the loop thread begins a pass while it runs, and
otherwise runs the stop sequence and returns. -/
theorem destructor_running_loop (h : Hooks σ) (m n : Nat) (s : threadloop σ)
    (hstarted : s._m_thread = thread.joinable false) (hflag : s._m_terminate = false) :
    (n ≠ 0 → destructor h m n s = Except.error Fault.terminate) ∧
    (n = 0 → destructor h m n s = stop h m s ∧
      ∃ s1, stop h m s = Except.ok s1 ∧ s1._m_terminate = true ∧
        s1._m_thread = thread.not_joinable ∧ s1.joins = s.joins + 1) := by
  have hstop := stop_joinable h m s false hstarted
  refine ⟨?_, ?_⟩
  · intro hn
    simp [destructor, should_terminate, hflag, hstarted, hn]
  · intro hn
    refine ⟨?_, _, hstop, rfl, rfl, rfl⟩
    simp only [destructor, should_terminate, hflag, hstarted, hn, hstop]
    rfl

/-- C8, evaluated on the code.  A loop is started and destroyed without
`stop()`.  When its loop thread begins one pass while `~threadloop` runs, the
destructor does not set the flag, join and return: the pass calls the pure
virtual `_p_one_iteration` and the process ends in `std::terminate`.  (When
the thread begins no pass in that time the destructor returns, with one join.)
And a loop restarted after `stop()` has its flag set, so that the destructor
skips `stop()` and destroys a joinable handle: `std::terminate` again, with
the thread not joined. -/
theorem destructor_aborts_on_running_loop :
    start (construct (0 : Nat)) = Except.ok started_loop ∧
    should_terminate started_loop = false ∧
    destructor always_yield 2 1 started_loop = Except.error Fault.terminate ∧
    destructor always_yield 2 0 started_loop = Except.ok stopped_loop ∧
    run_ops always_yield [Op.start, Op.stop 2, Op.start] (construct 0)
      = Except.ok { stopped_loop with _m_thread := thread.joinable true } ∧
    destructor always_yield 0 0 { stopped_loop with _m_thread := thread.joinable true }
      = Except.error Fault.terminate :=
  ⟨rfl, rfl, rfl, rfl, rfl, rfl⟩

/-! ### The lifecycle -/

theorem passes_zero_iterations (tr : List Event) :
    iterations (tr ++ Event.thread_setup :: (passes 0 ++ [Event.should_terminate true]))
      = iterations tr := by
  simp [iterations, passes, List.count_append, List.count_cons]

/-- No call by the owner clears the flag. -/
theorem apply_keeps_flag (h : Hooks σ) (op : Op) (s s1 : threadloop σ)
    (hflag : s._m_terminate = true) (hop : apply h op s = Except.ok s1) :
    s1._m_terminate = true := by
  cases op with
  | start =>
    obtain ⟨_, hs1⟩ := start_returned s s1 hop
    subst hs1
    exact hflag
  | stop n =>
    obtain ⟨b, _, hs1⟩ := stop_returned h n s s1 hop
    subst hs1
    rfl

/-- When the flag is set and no thread spawned before the store is left to
join, a call by the owner keeps it so and adds no iteration to the log. -/
theorem apply_settled (h : Hooks σ) (op : Op) (s s1 : threadloop σ)
    (hs : s._m_terminate = true ∧ s._m_thread ≠ thread.joinable false)
    (hop : apply h op s = Except.ok s1) :
    (s1._m_terminate = true ∧ s1._m_thread ≠ thread.joinable false) ∧
    iterations s1.log = iterations s.log := by
  obtain ⟨hflag, hthread⟩ := hs
  cases op with
  | start =>
    obtain ⟨_, hs1⟩ := start_returned s s1 hop
    subst hs1
    exact ⟨⟨hflag, by simp [hflag]⟩, rfl⟩
  | stop n =>
    obtain ⟨b, hb, hs1⟩ := stop_returned h n s s1 hop
    subst hs1
    cases b with
    | false => exact absurd hb hthread
    | true => exact ⟨⟨rfl, by simp⟩, passes_zero_iterations s.log⟩

theorem run_ops_keeps_flag (h : Hooks σ) :
    ∀ (ops : List Op) (s s1 : threadloop σ), s._m_terminate = true →
      run_ops h ops s = Except.ok s1 → s1._m_terminate = true := by
  intro ops
  induction ops with
  | nil =>
    intro s s1 hflag hrun
    cases hrun
    exact hflag
  | cons op ops ih =>
    intro s s1 hflag hrun
    simp only [run_ops] at hrun
    cases hop : apply h op s with
    | error e => rw [hop] at hrun; cases hrun
    | ok s2 =>
      rw [hop] at hrun
      exact ih s2 s1 (apply_keeps_flag h op s s2 hflag hop) hrun

theorem run_ops_settled (h : Hooks σ) :
    ∀ (ops : List Op) (s s1 : threadloop σ),
      (s._m_terminate = true ∧ s._m_thread ≠ thread.joinable false) →
      run_ops h ops s = Except.ok s1 → iterations s1.log = iterations s.log := by
  intro ops
  induction ops with
  | nil =>
    intro s s1 _ hrun
    cases hrun
    rfl
  | cons op ops ih =>
    intro s s1 hs hrun
    simp only [run_ops] at hrun
    cases hop : apply h op s with
    | error e => rw [hop] at hrun; cases hrun
    | ok s2 =>
      rw [hop] at hrun
      obtain ⟨hs2, hit⟩ := apply_settled h op s s2 hs hop
      rw [ih s2 s1 hs2 hrun, hit]

theorem phase_of_flag (s : threadloop σ) (hflag : s._m_terminate = true) :
    phase s = Phase.stopping ∨ phase s = Phase.stopped := by
  cases hthread : s._m_thread <;> simp [phase, hflag, hthread]

/-- C9.  The flag is `false` in a constructed loop; `start()` leaves it as it
is and `stop()` sets it; a started loop is running, is stopping once `stop()`
has stored the flag, and is stopped when `stop()` returns.  From a state in
which the flag is set, whatever calls the owner makes next, the flag stays set
and the loop is stopping or stopped, never running again; and unless a thread
spawned before the store is still to be joined, those calls add no iteration:
a `start()` after `stop()` spawns a thread that runs the setup hook, reads
`true` at its first load and returns. -/
theorem lifecycle_one_way (h : Hooks σ) (ops : List Op) (s s1 : threadloop σ)
    (hflag : s._m_terminate = true) (hrun : run_ops h ops s = Except.ok s1) :
    (s1._m_terminate = true ∧ (phase s1 = Phase.stopping ∨ phase s1 = Phase.stopped) ∧
      phase s1 ≠ Phase.running) ∧
    (s._m_thread ≠ thread.joinable false → iterations s1.log = iterations s.log) ∧
    (∀ p : σ, (construct p)._m_terminate = false ∧ phase (construct p) = Phase.constructed) ∧
    (∀ t t1 : threadloop σ, start t = Except.ok t1 → t1._m_terminate = t._m_terminate) ∧
    (∀ (n : Nat) (t t1 : threadloop σ), stop h n t = Except.ok t1 → t1._m_terminate = true) ∧
    (∀ (n : Nat) (p : σ), ∃ t1 t2, start (construct p) = Except.ok t1 ∧
      phase t1 = Phase.running ∧ phase (store_terminate t1) = Phase.stopping ∧
      stop h n t1 = Except.ok t2 ∧ phase t2 = Phase.stopped) ∧
    (∀ (n m : Nat) (t t1 : threadloop σ), stop h n t = Except.ok t1 →
      ∃ t2 t3, start t1 = Except.ok t2 ∧ stop h m t2 = Except.ok t3 ∧
        t3.log = t1.log ++ [Event.thread_setup, Event.should_terminate true] ∧
        iterations t3.log = iterations t1.log ∧
        t3.plugin = h._p_thread_setup t1.plugin) := by
  have hflag1 := run_ops_keeps_flag h ops s s1 hflag hrun
  have hphase := phase_of_flag s1 hflag1
  refine ⟨⟨hflag1, hphase, ?_⟩, ?_, ?_, ?_, ?_, ?_, ?_⟩
  · rcases hphase with hp | hp <;> simp [hp]
  · intro hthread
    exact run_ops_settled h ops s s1 ⟨hflag, hthread⟩ hrun
  · intro p
    exact ⟨rfl, rfl⟩
  · intro t t1 hstart
    obtain ⟨_, ht1⟩ := start_returned t t1 hstart
    subst ht1
    rfl
  · intro n t t1 hstop
    obtain ⟨b, _, ht1⟩ := stop_returned h n t t1 hstop
    subst ht1
    rfl
  · intro n p
    exact ⟨_, _, rfl, rfl, rfl, stop_joinable h n _ false rfl, rfl⟩
  · intro n m t t1 hstop
    obtain ⟨b, _, ht1⟩ := stop_returned h n t t1 hstop
    subst ht1
    refine ⟨_, _, rfl, stop_joinable h m _ true rfl, ?_, ?_, ?_⟩
    · simp [passes]
    · exact passes_zero_iterations _
    · rfl

/-- C9 at a concrete loop: stopped after two passes, then started and stopped
again; the log still holds two iterations. -/
theorem lifecycle_one_way_witness :
    run_ops always_yield [Op.start, Op.stop 5] stopped_loop
      = Except.ok ⟨2, true, thread.not_joinable,
          stopped_loop.log ++ [Event.thread_setup, Event.should_terminate true], 2⟩ ∧
    iterations (stopped_loop.log ++ [Event.thread_setup, Event.should_terminate true])
      = iterations stopped_loop.log :=
  ⟨rfl,
   (lifecycle_one_way always_yield [Op.start, Op.stop 5] stopped_loop
      ⟨2, true, thread.not_joinable,
        stopped_loop.log ++ [Event.thread_setup, Event.should_terminate true], 2⟩
      rfl rfl).2.1 (by decide)⟩

/-- A loop restarted after `stop()` and then destroyed: the destructor finds
the flag set, skips `stop()`, and destroys a joinable handle. -/
theorem restart_then_destroy :
    run_ops always_yield [Op.start, Op.stop 2, Op.start] (construct 0)
      = Except.ok { stopped_loop with _m_thread := thread.joinable true } ∧
    destructor always_yield 0 0 { stopped_loop with _m_thread := thread.joinable true }
      = Except.error Fault.terminate :=
  ⟨rfl, rfl⟩

end threadloop

end ILLIXR

/-! ## The cancellable sleep of `main` -/

theorem reads_fresh_some (n k : Nat) :
    cancellable_sleep.reads cancellable_sleep.fresh (some n) k = decide (n ≤ k) := by
  by_cases h : n ≤ k <;>
    simp [cancellable_sleep.reads, cancellable_sleep.fresh, cancellable_sleep.cancel, h]

theorem reads_fresh_none (k : Nat) :
    cancellable_sleep.reads cancellable_sleep.fresh none k = false := by
  simp [cancellable_sleep.reads, cancellable_sleep.fresh]

/-- The loop of `cancellable_sleep::sleep` is left once a load reads `true`:
with `m` loads to go before one that reads `true` it returns after at most `m`
chunks of 100 ms, and after exactly `m` if until then the wake-up time has not
passed. -/
theorem cancellable_sleep_loop_returns (loads : Nat → Bool) (clock : Nat → Int) (wake : Int) :
    ∀ (fuel k m : Nat), loads (k + m) = true → m < fuel →
      ∃ c, c ≤ m ∧
        cancellable_sleep.sleep_loop loads clock wake fuel k
          = some (List.replicate c cancellable_sleep.CHUNK) ∧
        ((∀ j, j < m → loads (k + j) = false ∧ clock (k + j + 1) < wake) → c = m) := by
  intro fuel
  induction fuel with
  | zero => intro k m _ hm; omega
  | succ fuel ih =>
    intro k m hload hm
    by_cases hk : loads k = true
    · refine ⟨0, by omega, by simp [cancellable_sleep.sleep_loop, hk], ?_⟩
      intro hall
      cases m with
      | zero => rfl
      | succ m =>
        have := (hall 0 (by omega)).1
        simp [hk] at this
    · have hk0 : loads k = false := by simpa using hk
      by_cases ht : clock (k + 1) < wake
      · cases m with
        | zero => simp [hk0] at hload
        | succ m =>
          obtain ⟨c, hc, hloop, hexact⟩ :=
            ih (k + 1) m (by rwa [show k + 1 + m = k + (m + 1) by omega]) (by omega)
          refine ⟨c + 1, by omega,
            by simp [cancellable_sleep.sleep_loop, hk0, ht, hloop, List.replicate_succ], ?_⟩
          intro hall
          have hc' : c = m := by
            apply hexact
            intro j hj
            have := hall (j + 1) (by omega)
            rwa [show k + (j + 1) = k + 1 + j by omega] at this
          omega
      · refine ⟨0, by omega, by simp [cancellable_sleep.sleep_loop, hk0, ht], ?_⟩
        intro hall
        cases m with
        | zero => rfl
        | succ m =>
          have := (hall 0 (by omega)).2
          exact absurd this ht

/-- What a returned loop of `cancellable_sleep::sleep` has done: every chunk
was of 100 ms and followed a load that read `false` and a clock reading before
the wake-up time, and the loop was left at a load that read `true` or at a
clock reading not before the wake-up time. -/
theorem cancellable_sleep_loop_sound (loads : Nat → Bool) (clock : Nat → Int) (wake : Int) :
    ∀ (fuel k : Nat) (slept : List Int),
      cancellable_sleep.sleep_loop loads clock wake fuel k = some slept →
      slept = List.replicate slept.length cancellable_sleep.CHUNK ∧
      (∀ j, j < slept.length → loads (k + j) = false ∧ clock (k + j + 1) < wake) ∧
      (loads (k + slept.length) = true ∨
        (loads (k + slept.length) = false ∧ wake ≤ clock (k + slept.length + 1))) := by
  intro fuel
  induction fuel with
  | zero => intro k slept hloop; simp [cancellable_sleep.sleep_loop] at hloop
  | succ fuel ih =>
    intro k slept hloop
    by_cases hk : loads k = true
    · simp only [cancellable_sleep.sleep_loop, hk, if_true, Option.some.injEq] at hloop
      subst hloop
      exact ⟨rfl, by intro j hj; simp at hj, Or.inl (by simpa using hk)⟩
    · have hk0 : loads k = false := by simpa using hk
      by_cases ht : clock (k + 1) < wake
      · simp only [cancellable_sleep.sleep_loop, hk0, ht, if_true, Bool.false_eq_true,
          if_false] at hloop
        cases hrec : cancellable_sleep.sleep_loop loads clock wake fuel (k + 1) with
        | none => simp [hrec] at hloop
        | some slept1 =>
          simp only [hrec, Option.map_some', Option.some.injEq] at hloop
          subst hloop
          obtain ⟨hchunk, hpass, hexit⟩ := ih (k + 1) slept1 hrec
          refine ⟨?_, ?_, ?_⟩
          · simp only [List.length_cons, List.replicate_succ]
            rw [← hchunk]
          · intro j hj
            cases j with
            | zero => exact ⟨by simpa using hk0, by simpa using ht⟩
            | succ j =>
              have := hpass j (by simp only [List.length_cons] at hj; omega)
              rwa [show k + 1 + j = k + (j + 1) by omega] at this
          · simp only [List.length_cons]
            rwa [show k + 1 + slept1.length = k + (slept1.length + 1) by omega] at hexit
      · simp only [cancellable_sleep.sleep_loop, hk0, ht, if_false, Bool.false_eq_true,
          Option.some.injEq] at hloop
        subst hloop
        exact ⟨rfl, by intro j hj; simp at hj,
          Or.inr ⟨by simpa using hk0, by simpa using ht⟩⟩

/-- The loop of `cancellable_sleep::sleep` is left once the clock has passed the
wake-up time, whatever the flag reads. -/
theorem cancellable_sleep_loop_wakes (loads : Nat → Bool) (clock : Nat → Int) (wake : Int) :
    ∀ (fuel k m : Nat), wake ≤ clock (k + m + 1) → m < fuel →
      ∃ c, c ≤ m ∧
        cancellable_sleep.sleep_loop loads clock wake fuel k
          = some (List.replicate c cancellable_sleep.CHUNK) := by
  intro fuel
  induction fuel with
  | zero => intro k m _ hm; omega
  | succ fuel ih =>
    intro k m hclock hm
    by_cases hk : loads k = true
    · exact ⟨0, by omega, by simp [cancellable_sleep.sleep_loop, hk]⟩
    · have hk0 : loads k = false := by simpa using hk
      by_cases ht : clock (k + 1) < wake
      · cases m with
        | zero => simp only [Nat.add_zero] at hclock; omega
        | succ m =>
          obtain ⟨c, hc, hloop⟩ :=
            ih (k + 1) m (by rwa [show k + 1 + m + 1 = k + (m + 1) + 1 by omega]) (by omega)
          exact ⟨c + 1, by omega,
            by simp [cancellable_sleep.sleep_loop, hk0, ht, hloop, List.replicate_succ]⟩
      · exact ⟨0, by omega, by simp [cancellable_sleep.sleep_loop, hk0, ht]⟩

/-- A wake-up time that fits 64 bits is the sum of the clock reading and the
duration. -/
theorem wake_up_time_of_range (now duration period : Int)
    (hlo : -(2 ^ 63) ≤ duration * period) (hhi : duration * period < 2 ^ 63)
    (hlo1 : -(2 ^ 63) ≤ now + duration * period) (hhi1 : now + duration * period < 2 ^ 63) :
    cancellable_sleep.wake_up_time now duration period = now + duration * period := by
  unfold cancellable_sleep.wake_up_time
  rw [ILLIXR.wrap_int64_of_range _ hlo hhi, ILLIXR.wrap_int64_of_range _ hlo1 hhi1]

/-- A run duration of ten thousand million seconds does not fit 64 bits of
nanoseconds: the wake-up time comes out in the past and the sleep returns at
once, with the value `false`. -/
theorem cancellable_sleep_overflow :
    cancellable_sleep.wake_up_time (ILLIXR.epoch_clock 0) 10000000000 1000000000
      = -6746744073709551616 ∧
    cancellable_sleep.sleep cancellable_sleep.fresh none ILLIXR.epoch_clock 10000000000
        1000000000 5
      = some ([], false) := by
  decide

/-- C11.  The timer's object starts with its flag unset and `cancel()` sets
it.  For every duration `d` (in ticks of `period` nanoseconds), every sequence
of clock readings, every moment at which `cancel()` is called, if ever, and
every bound `fuel` on the number of passes, with the wake-up time the 64-bit
value the code computes for `now + d`:

* when `sleep(d)` returns, every chunk it slept was of 100 ms and followed a
  load of the flag that read `false` and a clock reading before the wake-up
  time; the loop was left at a load that read `true` or at a clock reading not
  before the wake-up time; the value returned is the load made after the loop;
* if `cancel()` is called after `k` loads, `sleep(d)` returns after at most `k`
  chunks, whatever `d`: a `cancel()` during chunk `k - 1` lets no chunk after
  that one start; it returns `true` when the loop is left at load `k`, which is
  the case when the wake-up time has not passed before;
* if `cancel()` is never called and the clock reaches the wake-up time,
  `sleep(d)` returns `false`, at the first clock reading that is not before
  the wake-up time;
* the wake-up time is `now + d` whenever that fits 64 bits of nanoseconds. -/
theorem cancellable_sleep_returns (cancel_after : Option Nat) (clock : Nat → Int)
    (d period : Int) (fuel : Nat) :
    (cancellable_sleep.fresh._m_terminate = false ∧
      (cancellable_sleep.cancel cancellable_sleep.fresh)._m_terminate = true ∧
      cancellable_sleep.CHUNK = 100000000) ∧
    (∀ slept b,
      cancellable_sleep.sleep cancellable_sleep.fresh cancel_after clock d period fuel
        = some (slept, b) →
      slept = List.replicate slept.length cancellable_sleep.CHUNK ∧
      (∀ j, j < slept.length →
        cancellable_sleep.reads cancellable_sleep.fresh cancel_after j = false ∧
        clock (j + 1) < cancellable_sleep.wake_up_time (clock 0) d period) ∧
      (cancellable_sleep.reads cancellable_sleep.fresh cancel_after slept.length = true ∨
        cancellable_sleep.wake_up_time (clock 0) d period ≤ clock (slept.length + 1)) ∧
      b = cancellable_sleep.reads cancellable_sleep.fresh cancel_after (slept.length + 1)) ∧
    (∀ k, cancel_after = some k → k < fuel →
      ∃ c b, c ≤ k ∧
        cancellable_sleep.sleep cancellable_sleep.fresh cancel_after clock d period fuel
          = some (List.replicate c cancellable_sleep.CHUNK, b) ∧
        (c = k → b = true) ∧
        ((∀ j, j < k → clock (j + 1) < cancellable_sleep.wake_up_time (clock 0) d period) →
          c = k ∧ b = true)) ∧
    (cancel_after = none →
      ∀ m, cancellable_sleep.wake_up_time (clock 0) d period ≤ clock (m + 1) → m < fuel →
      ∃ c, c ≤ m ∧
        cancellable_sleep.sleep cancellable_sleep.fresh cancel_after clock d period fuel
          = some (List.replicate c cancellable_sleep.CHUNK, false) ∧
        (∀ j, j < c → clock (j + 1) < cancellable_sleep.wake_up_time (clock 0) d period) ∧
        cancellable_sleep.wake_up_time (clock 0) d period ≤ clock (c + 1)) ∧
    (-(2 ^ 63) ≤ d * period → d * period < 2 ^ 63 →
      -(2 ^ 63) ≤ clock 0 + d * period → clock 0 + d * period < 2 ^ 63 →
      cancellable_sleep.wake_up_time (clock 0) d period = clock 0 + d * period) := by
  refine ⟨⟨rfl, rfl, rfl⟩, ?_, ?_, ?_, wake_up_time_of_range (clock 0) d period⟩
  · intro slept b hsleep
    unfold cancellable_sleep.sleep at hsleep
    cases hloop : cancellable_sleep.sleep_loop
        (cancellable_sleep.reads cancellable_sleep.fresh cancel_after) clock
        (cancellable_sleep.wake_up_time (clock 0) d period) fuel 0 with
    | none => simp [hloop] at hsleep
    | some slept1 =>
      simp only [hloop, Option.map_some', Option.some.injEq, Prod.mk.injEq] at hsleep
      obtain ⟨hc, hb⟩ := hsleep
      subst hc
      obtain ⟨hchunk, hpass, hexit⟩ := cancellable_sleep_loop_sound _ clock _ fuel 0 slept1 hloop
      refine ⟨hchunk, fun j hj => by simpa using hpass j hj, ?_, hb.symm⟩
      rcases hexit with h | ⟨_, h⟩
      · exact Or.inl (by simpa using h)
      · exact Or.inr (by simpa using h)
  · intro k hk hfuel
    subst hk
    obtain ⟨c, hc, hloop, hexact⟩ :=
      cancellable_sleep_loop_returns
        (cancellable_sleep.reads cancellable_sleep.fresh (some k)) clock
        (cancellable_sleep.wake_up_time (clock 0) d period) fuel 0 k
        (by simp [reads_fresh_some]) hfuel
    refine ⟨c, cancellable_sleep.reads cancellable_sleep.fresh (some k) (c + 1), hc,
      by simp [cancellable_sleep.sleep, hloop], ?_, ?_⟩
    · intro hck
      subst hck
      simp [reads_fresh_some]
    · intro hall
      have hck : c = k := by
        apply hexact
        intro j hj
        refine ⟨by simp [reads_fresh_some]; omega, ?_⟩
        simpa using hall j hj
      subst hck
      exact ⟨rfl, by simp [reads_fresh_some]⟩
  · intro hnone m hclock hfuel
    subst hnone
    obtain ⟨c, hc, hloop⟩ :=
      cancellable_sleep_loop_wakes
        (cancellable_sleep.reads cancellable_sleep.fresh none) clock
        (cancellable_sleep.wake_up_time (clock 0) d period) fuel 0 m
        (by simpa using hclock) hfuel
    obtain ⟨_, hpass, hexit⟩ := cancellable_sleep_loop_sound _ clock _ fuel 0 _ hloop
    simp only [List.length_replicate, Nat.zero_add] at hpass hexit
    refine ⟨c, hc, by simp [cancellable_sleep.sleep, hloop, reads_fresh_none], ?_, ?_⟩
    · intro j hj
      exact (hpass j hj).2
    · rcases hexit with h | ⟨_, h⟩
      · simp [reads_fresh_none] at h
      · exact h

/-- C11 at a concrete call: a sleep of sixty seconds cancelled during its third
chunk returns `true` after three chunks of 100 ms. -/
theorem cancellable_sleep_returns_witness :
    cancellable_sleep.sleep cancellable_sleep.fresh (some 3) ILLIXR.microsecond_clock 60
        1000000000 10
      = some ([100000000, 100000000, 100000000], true) ∧
    ∃ c b, c ≤ 3 ∧
      cancellable_sleep.sleep cancellable_sleep.fresh (some 3) ILLIXR.microsecond_clock 60
          1000000000 10
        = some (List.replicate c cancellable_sleep.CHUNK, b) ∧
      (c = 3 → b = true) ∧
      ((∀ j, j < 3 → ILLIXR.microsecond_clock (j + 1)
          < cancellable_sleep.wake_up_time (ILLIXR.microsecond_clock 0) 60 1000000000) →
        c = 3 ∧ b = true) := by
  refine ⟨by decide, ?_⟩
  exact (cancellable_sleep_returns (some 3) ILLIXR.microsecond_clock 60 1000000000 10).2.2.1 3
    rfl (by decide)

/-! ## The shutdown of `main` -/

/-- Whenever the timer thread gets out of its sleep, cancelled or not, it
calls `r->stop()`, once. -/
theorem timer_thread_stop_calls (cancel_after : Option Nat) (clock : Nat → Int)
    (run_duration : Int) (fuel : Nat) (tr : List MainEvent)
    (htr : timer_thread cancel_after clock run_duration fuel = some tr) :
    stop_calls tr = [Caller.timer_thread] := by
  unfold timer_thread at htr
  cases hsleep : cancellable_sleep.sleep cancellable_sleep.fresh cancel_after clock run_duration
      1000000000 fuel with
  | none => simp [hsleep] at htr
  | some res =>
    simp only [hsleep, Option.map_some', Option.some.injEq] at htr
    subst htr
    rfl

/-- C10 as stated fails.  The handler for SIGINT calls `r->stop()`, `main`
returns from `wait()` and cancels the sleep before the timer thread has read
its flag; the sleep returns `true`, and the timer thread calls `r->stop()`. -/
theorem timer_stop_counterexample :
    timer_thread (some 0) (fun _ => 0) 60 1
      = some [MainEvent.sleep_returned 0 true, MainEvent.r_stop Caller.timer_thread] ∧
    shutdown Caller.signal_handler 0 (fun _ => 0) 60 1
      = some [MainEvent.r_stop Caller.signal_handler, MainEvent.wait_returned,
              MainEvent.cs_cancel, MainEvent.sleep_returned 0 true,
              MainEvent.r_stop Caller.timer_thread, MainEvent.th_join, MainEvent.delete_r] ∧
    (shutdown Caller.signal_handler 0 (fun _ => 0) 60 1).map stop_calls
      = some [Caller.signal_handler, Caller.timer_thread] := by
  decide

/-- C10, amended.  When the signal handler or an in-process call is the first
to call `r->stop()`, `main` returns from `wait()` and cancels the sleep of the
timer thread, with `n` loads of the flag made by then.  The sleep returns
within `n + 1` loads, after at most `n` chunks (and returns `true` after `n`
chunks when the wake-up time has not passed by then), and the timer thread
then calls `r->stop()` all the same: `r->stop()` is called twice, by the first
trigger and then by the timer thread, before `th.join()` returns. -/
theorem shutdown_stops_twice (first : Caller) (n : Nat) (clock : Nat → Int) (run_duration : Int)
    (fuel : Nat) (hfirst : first ≠ Caller.timer_thread) (hfuel : n < fuel) :
    ∃ (c : Nat) (b : Bool), c ≤ n ∧
      shutdown first n clock run_duration fuel
        = some [MainEvent.r_stop first, MainEvent.wait_returned, MainEvent.cs_cancel,
                MainEvent.sleep_returned c b, MainEvent.r_stop Caller.timer_thread,
                MainEvent.th_join, MainEvent.delete_r] ∧
      (shutdown first n clock run_duration fuel).map stop_calls
        = some [first, Caller.timer_thread] ∧
      ((∀ j, j < n →
          clock (j + 1) < cancellable_sleep.wake_up_time (clock 0) run_duration 1000000000) →
        c = n ∧ b = true) := by
  obtain ⟨c, hc, hloop, hexact⟩ :=
    cancellable_sleep_loop_returns
      (cancellable_sleep.reads cancellable_sleep.fresh (some n)) clock
      (cancellable_sleep.wake_up_time (clock 0) run_duration 1000000000) fuel 0 n
      (by simp [reads_fresh_some]) hfuel
  have htimer : timer_thread (some n) clock run_duration fuel
      = some [MainEvent.sleep_returned c (decide (n ≤ c + 1)),
              MainEvent.r_stop Caller.timer_thread] := by
    simp [timer_thread, cancellable_sleep.sleep, hloop, reads_fresh_some]
  refine ⟨c, decide (n ≤ c + 1), hc, ?_, ?_, ?_⟩
  · cases first with
    | timer_thread => exact absurd rfl hfirst
    | signal_handler => simp [shutdown, htimer]
    | in_process => simp [shutdown, htimer]
  · cases first with
    | timer_thread => exact absurd rfl hfirst
    | signal_handler => simp [shutdown, htimer, stop_calls]
    | in_process => simp [shutdown, htimer, stop_calls]
  · intro hall
    have hcn : c = n := by
      apply hexact
      intro j hj
      refine ⟨by simp [reads_fresh_some]; omega, ?_⟩
      simpa using hall j hj
    subst hcn
    exact ⟨rfl, by simp⟩

/-- C10, amended, at a concrete run: SIGINT arrives while the timer thread is
in its third chunk of a sixty-second sleep. -/
theorem shutdown_stops_twice_witness :
    shutdown Caller.signal_handler 3 ILLIXR.microsecond_clock 60 10
      = some [MainEvent.r_stop Caller.signal_handler, MainEvent.wait_returned,
              MainEvent.cs_cancel, MainEvent.sleep_returned 3 true,
              MainEvent.r_stop Caller.timer_thread, MainEvent.th_join, MainEvent.delete_r] ∧
    ∃ (c : Nat) (b : Bool), c ≤ 3 ∧
      shutdown Caller.signal_handler 3 ILLIXR.microsecond_clock 60 10
        = some [MainEvent.r_stop Caller.signal_handler, MainEvent.wait_returned,
                MainEvent.cs_cancel, MainEvent.sleep_returned c b,
                MainEvent.r_stop Caller.timer_thread, MainEvent.th_join, MainEvent.delete_r] ∧
      (shutdown Caller.signal_handler 3 ILLIXR.microsecond_clock 60 10).map stop_calls
        = some [Caller.signal_handler, Caller.timer_thread] ∧
      ((∀ j, j < 3 → ILLIXR.microsecond_clock (j + 1)
          < cancellable_sleep.wake_up_time (ILLIXR.microsecond_clock 0) 60 1000000000) →
        c = 3 ∧ b = true) := by
  refine ⟨by decide, ?_⟩
  exact shutdown_stops_twice Caller.signal_handler 3 ILLIXR.microsecond_clock 60 10
    (by decide) (by decide)

/-! ## The start of `main` -/

/-- The loop that loads the plugins, entered with index `i`, calls `load_so`
on `argv[i]`, `argv[i + 1]`, ... up to the last argument, in that order. -/
theorem load_loop_drop (argv : List String) :
    ∀ (n i : Nat), argv.length - i = n →
      load_loop argv i = (argv.drop i).map StartupEvent.load_so := by
  intro n
  induction n with
  | zero =>
    intro i hi
    have hle : argv.length ≤ i := by omega
    rw [load_loop, dif_neg (by omega), List.drop_of_length_le hle]
    rfl
  | succ n ih =>
    intro i hi
    have hlt : i < argv.length := by omega
    rw [load_loop, dif_pos hlt, ih (i + 1) (by omega), List.drop_eq_getElem_cons hlt]
    rfl

theorem load_calls_append (a b : List StartupEvent) :
    load_calls (a ++ b) = load_calls a ++ load_calls b := by
  induction a with
  | nil => rfl
  | cons e a ih => cases e <;> simp [load_calls, ih]

theorem load_calls_load_so (paths : List String) :
    load_calls (paths.map StartupEvent.load_so) = paths := by
  induction paths with
  | nil => rfl
  | cons a paths ih => simp [load_calls, ih]

/-- C12.  For every argument vector, with `argc` its length: the steps of
`main` are the creation of the runtime, then one `r->load_so(argv[i])` for
each `i = 1, ..., argc - 1` in that order and none for `argv[0]`, then the
installation of the signal handler, then steps among which there is no load;
with `argc = 1` nothing is loaded. -/
theorem main_loads_arguments (stol : String → Option Int) (argv : List String)
    (env : Option String) (hargc : 1 ≤ argv.length) :
    (∃ rest, main_startup stol argv env
        = StartupEvent.runtime_factory
            :: ((argv.drop 1).map StartupEvent.load_so ++ StartupEvent.signal_sigint :: rest) ∧
      load_calls rest = [] ∧
      (∀ d, run_duration stol env = some d →
        rest = [StartupEvent.spawn_timer d, StartupEvent.r_wait])) ∧
    load_calls (main_startup stol argv env) = argv.tail ∧
    (load_calls (main_startup stol argv env)).length = argv.length - 1 ∧
    (∀ i, (load_calls (main_startup stol argv env))[i]? = argv[i + 1]?) ∧
    (argv.length = 1 → load_calls (main_startup stol argv env) = []) := by
  have hloop : load_loop argv 1 = (argv.drop 1).map StartupEvent.load_so :=
    load_loop_drop argv (argv.length - 1) 1 rfl
  have hrest : load_calls (match run_duration stol env with
      | some d => [StartupEvent.spawn_timer d, StartupEvent.r_wait]
      | none => [StartupEvent.stol_throws]) = [] := by
    cases run_duration stol env <;> rfl
  have hcalls : load_calls (main_startup stol argv env) = argv.tail := by
    simp only [main_startup, hloop, load_calls_append, load_calls_load_so, hrest]
    simp [load_calls]
  refine ⟨⟨_, ?_, hrest, ?_⟩, hcalls, ?_, ?_, ?_⟩
  · simp only [main_startup, hloop]
    simp
  · intro d hd
    simp [hd]
  · rw [hcalls]
    simp
  · intro i
    rw [hcalls]
    cases argv with
    | nil => simp at hargc
    | cons a argv => simp
  · intro hone
    rw [hcalls]
    cases argv with
    | nil => rfl
    | cons a argv =>
      cases argv with
      | nil => rfl
      | cons b argv => simp at hone

/-- C12 at a concrete command line with two plugins. -/
theorem main_loads_arguments_witness :
    load_calls (main_startup stol_decimal ["main.exe", "plugin_a.so", "plugin_b.so"] none)
      = ["plugin_a.so", "plugin_b.so"] ∧
    (∃ rest, main_startup stol_decimal ["main.exe", "plugin_a.so", "plugin_b.so"] none
        = StartupEvent.runtime_factory
            :: ((["main.exe", "plugin_a.so", "plugin_b.so"].drop 1).map StartupEvent.load_so
                ++ StartupEvent.signal_sigint :: rest) ∧
      load_calls rest = [] ∧
      (∀ d, run_duration stol_decimal none = some d →
        rest = [StartupEvent.spawn_timer d, StartupEvent.r_wait])) := by
  have key := main_loads_arguments stol_decimal ["main.exe", "plugin_a.so", "plugin_b.so"] none
    (by decide)
  exact ⟨key.2.1, key.1⟩

/-- C13.  The run duration is `ILLIXR_RUN_DURATION_DEFAULT`, 60 seconds, when
the variable is absent.  When it is present with value `v` the run duration is
what `std::stol` makes of `v`, `n` seconds when that is `n`, and the default
plays no part: when `std::stol` throws there is no run duration at all. -/
theorem run_duration_from_environment (stol : String → Option Int) :
    run_duration stol none = some 60 ∧
    ILLIXR_RUN_DURATION_DEFAULT = 60 ∧
    (∀ (v : String) (n : Int), stol v = some n → run_duration stol (some v) = some n) ∧
    (∀ v : String, run_duration stol (some v) = stol v) ∧
    (∀ (argv : List String) (v : String) (n : Int), stol v = some n →
      StartupEvent.spawn_timer n ∈ main_startup stol argv (some v)) ∧
    (∀ argv : List String, StartupEvent.spawn_timer 60 ∈ main_startup stol argv none) := by
  refine ⟨rfl, rfl, ?_, fun _ => rfl, ?_, ?_⟩
  · intro v n hv
    simpa [run_duration] using hv
  · intro argv v n hv
    simp [main_startup, run_duration, hv]
  · intro argv
    simp [main_startup, run_duration, ILLIXR_RUN_DURATION_DEFAULT]

/-- C13 at concrete values of the variable, read in base 10. -/
theorem run_duration_from_environment_witness :
    run_duration stol_decimal (some "120") = some 120 ∧
    run_duration stol_decimal (some "-5") = some (-5) ∧
    run_duration stol_decimal (some "") = none ∧
    run_duration stol_decimal (some "soon") = none ∧
    run_duration stol_decimal none = some 60 ∧
    (∀ v : String, run_duration stol_decimal (some v) = stol_decimal v) := by
  refine ⟨by decide, by decide, by decide, by decide, by decide, ?_⟩
  exact (run_duration_from_environment stol_decimal).2.2.2.1

namespace ILLIXR

namespace threadloop

/-- C20.  A loop that is constructed and never started has its flag unset, so
the destructor calls `stop()`; `stop()` stores the flag and joins a handle
that is not joinable, which throws `std::system_error`: the destructor does
not return normally, the exception that leaves it ends the process in
`std::terminate`. -/
theorem destructor_never_started {σ : Type} (h : Hooks σ) (m n : Nat) (p : σ) :
    should_terminate (construct p) = false ∧
    (construct p)._m_thread = thread.not_joinable ∧
    stop h m (construct p) = Except.error Fault.system_error ∧
    destructor h m n (construct p) = Except.error Fault.terminate ∧
    (∀ s1, destructor h m n (construct p) ≠ Except.ok s1) ∧
    destroy_thread (construct p) = Except.ok (construct p) := by
  refine ⟨rfl, rfl, rfl, rfl, ?_, rfl⟩
  intro s1 hok
  have hfail : destructor h m n (construct p) = Except.error Fault.terminate := rfl
  rw [hfail] at hok
  cases hok

end threadloop

end ILLIXR

/-! ## The pose prediction -/

namespace Quaternionf

variable {α : Type} [LinearOrderedField α]

theorem mul_assoc (a b c : Quaternionf α) : mul (mul a b) c = mul a (mul b c) := by
  simp only [mul, Quaternionf.mk.injEq]
  refine ⟨?_, ?_, ?_, ?_⟩ <;> ring

theorem mul_Identity (a : Quaternionf α) : mul a Identity = a := by
  cases a
  simp [mul, Identity]

/-- A quaternion of positive squared norm times its `inverse()` is the
identity. -/
theorem mul_inverse (a : Quaternionf α) (ha : 0 < squaredNorm a) :
    mul a (inverse a) = Identity := by
  have hne : squaredNorm a ≠ 0 := ne_of_gt ha
  have hn : a.w * a.w + a.x * a.x + a.y * a.y + a.z * a.z = squaredNorm a := rfl
  simp only [inverse, ha, if_true, mul, Identity, Quaternionf.mk.injEq]
  refine ⟨?_, ?_, ?_, ?_⟩
  · field_simp
    rw [← hn]
  · field_simp
    ring
  · field_simp
    ring
  · field_simp
    ring

end Quaternionf

namespace pose_prediction_impl

variable {α : Type} [LinearOrderedField α]

/-- C14.  Whatever the readers of "slow_pose" and "true_pose" yield,
`get_fast_pose()` and `get_true_pose()` return a pose: `correct_pose` of the
value of `pose_type{}` when the reader yields null, and `correct_pose(p)` when
it yields a pose `p`. -/
theorem get_pose_nullable (s : pose_prediction_impl α) (default_pose : pose_type α) :
    (s._m_pose = none → get_fast_pose s default_pose = correct_pose s default_pose) ∧
    (∀ p, s._m_pose = some p → get_fast_pose s default_pose = correct_pose s p) ∧
    (s._m_true_pose = none → get_true_pose s default_pose = correct_pose s default_pose) ∧
    (∀ p, s._m_true_pose = some p → get_true_pose s default_pose = correct_pose s p) ∧
    get_fast_pose s default_pose = correct_pose s (s._m_pose.getD default_pose) ∧
    get_true_pose s default_pose = correct_pose s (s._m_true_pose.getD default_pose) := by
  refine ⟨?_, ?_, ?_, ?_, ?_, ?_⟩
  · intro hnull
    simp [get_fast_pose, hnull]
  · intro p hp
    simp [get_fast_pose, hp]
  · intro hnull
    simp [get_true_pose, hnull]
  · intro p hp
    simp [get_true_pose, hp]
  · cases hp : s._m_pose <;> simp [get_fast_pose, hp]
  · cases hp : s._m_true_pose <;> simp [get_true_pose, hp]

/-- C16.  In exact arithmetic, for a current offset `o` and an argument `q`
such that `o` and `q * o.inverse()` have a positive squared norm: after
`set_offset(q)` the offset is the inverse of `q * o.inverse()`, and
`apply_offset` maps `q * o.inverse()` to the identity; and every raw
orientation `r` whose corrected orientation `apply_offset(r)` was `q` before
the call is mapped to the identity after it. -/
theorem set_offset_identity (s : pose_prediction_impl α) (q : Quaternionf α)
    (ho : 0 < Quaternionf.squaredNorm s.offset)
    (hraw : 0 < Quaternionf.squaredNorm (Quaternionf.mul q (Quaternionf.inverse s.offset))) :
    (set_offset s q).offset
      = Quaternionf.inverse (Quaternionf.mul q (Quaternionf.inverse s.offset)) ∧
    apply_offset (set_offset s q) (Quaternionf.mul q (Quaternionf.inverse s.offset))
      = Quaternionf.Identity ∧
    (∀ r, apply_offset s r = q → apply_offset (set_offset s q) r = Quaternionf.Identity) := by
  have hid : apply_offset (set_offset s q) (Quaternionf.mul q (Quaternionf.inverse s.offset))
      = Quaternionf.Identity := by
    simp only [apply_offset, set_offset]
    exact Quaternionf.mul_inverse _ hraw
  refine ⟨rfl, hid, ?_⟩
  intro r hr
  have hback : Quaternionf.mul q (Quaternionf.inverse s.offset) = r := by
    rw [← hr]
    simp only [apply_offset]
    rw [Quaternionf.mul_assoc, Quaternionf.mul_inverse _ ho, Quaternionf.mul_Identity]
  rw [hback] at hid
  exact hid

/-- C16 at a concrete offset and argument. -/
theorem set_offset_identity_witness :
    (set_offset turned_predictor ⟨0, 0, 1, 0⟩).offset
      = Quaternionf.inverse
          (Quaternionf.mul ⟨0, 0, 1, 0⟩ (Quaternionf.inverse turned_predictor.offset)) ∧
    apply_offset (set_offset turned_predictor ⟨0, 0, 1, 0⟩)
        (Quaternionf.mul ⟨0, 0, 1, 0⟩ (Quaternionf.inverse turned_predictor.offset))
      = Quaternionf.Identity ∧
    (∀ r, apply_offset turned_predictor r = ⟨0, 0, 1, 0⟩ →
      apply_offset (set_offset turned_predictor ⟨0, 0, 1, 0⟩) r = Quaternionf.Identity) :=
  set_offset_identity turned_predictor ⟨0, 0, 1, 0⟩
    (by norm_num [turned_predictor, Quaternionf.squaredNorm])
    (by norm_num [turned_predictor, Quaternionf.squaredNorm, Quaternionf.mul,
      Quaternionf.inverse])

/-- C18.  For every pose `p`, `correct_pose(p)` has the time of `p`, the
position `(-p.y, p.z, -p.x)` and the orientation
`Quaternion(w, -y, z, -x) * offset`, with `(w, x, y, z)` the orientation of
`p`. -/
theorem correct_pose_components (s : pose_prediction_impl α) (p : pose_type α) :
    (correct_pose s p).time = p.time ∧
    (correct_pose s p).position = ⟨-p.position.y, p.position.z, -p.position.x⟩ ∧
    (correct_pose s p).orientation
      = Quaternionf.mul ⟨p.orientation.w, -p.orientation.y, p.orientation.z, -p.orientation.x⟩
          s.offset ∧
    (correct_pose s p).orientation
      = apply_offset s ⟨p.orientation.w, -p.orientation.y, p.orientation.z, -p.orientation.x⟩ := by
  refine ⟨rfl, rfl, rfl, rfl⟩

end pose_prediction_impl

/-! ## The timewarp -/

namespace timewarp_gl

/-- C17, evaluated on the code.  Nothing has been published on "eyebuffer":
`_p_should_skip()` would answer `skip_and_yield`, but `thread_main` does not
call it; with a flag that reads `false`, `false`, `true` the loop thread calls
`_p_one_iteration()` twice, `warp` finds a null frame and
`assert(most_recent_frame)` fails. -/
theorem warp_asserts_without_frame :
    (hooks._p_should_skip before_first_frame).1 = ILLIXR.skip_option.skip_and_yield ∧
    (ILLIXR.thread_main hooks ILLIXR.set_after_two 3 before_first_frame).state
      = ⟨none, 0, true⟩ ∧
    ILLIXR.iterations (ILLIXR.thread_main hooks ILLIXR.set_after_two 3 before_first_frame).trace
      = 2 ∧
    ILLIXR.policy_calls
      (ILLIXR.thread_main hooks ILLIXR.set_after_two 3 before_first_frame).trace = [] := by
  decide

/-- Consecutive blocks of `k` consecutive numbers are consecutive numbers. -/
theorem flatMap_blocks (k : Nat) :
    ∀ (n a : Nat), (List.range n).flatMap (fun i => List.range' (a + i * k) k)
      = List.range' a (n * k) := by
  intro n
  induction n with
  | zero => intro a; simp
  | succ n ih =>
    intro a
    rw [List.range_succ, List.flatMap_append, ih a]
    simp only [List.flatMap_cons, List.flatMap_nil, List.append_nil]
    rw [List.range'_append_1]
    congr 1
    ring

theorem tile_slots (W y x : Nat) :
    (tile_stores W y x).map Prod.fst = List.range' ((y * W + x) * 6) 6 := by
  simp [tile_stores, List.range']

theorem row_slots (W y : Nat) :
    ((List.range W).flatMap fun x => tile_stores W y x).map Prod.fst
      = List.range' (y * (W * 6)) (W * 6) := by
  rw [List.map_flatMap]
  simp only [tile_slots]
  have := flatMap_blocks 6 W (y * (W * 6))
  rw [← this]
  congr 1
  funext x
  congr 1
  ring

theorem index_slots (W H : Nat) :
    (index_stores W H).map Prod.fst = List.range (H * W * 6) := by
  unfold index_stores
  rw [List.map_flatMap]
  simp only [row_slots]
  have := flatMap_blocks (W * 6) H 0
  simp only [Nat.zero_add] at this
  rw [this, List.range_eq_range', Nat.mul_assoc]

/-- A slot that no store names keeps its content. -/
theorem foldl_store_other (log : List (Nat × Nat)) :
    ∀ (mem : Nat → Option Nat) (s : Nat), s ∉ log.map Prod.fst →
      (log.foldl store mem) s = mem s := by
  induction log with
  | nil => intro mem s _; rfl
  | cons w log ih =>
    intro mem s hs
    simp only [List.map_cons, List.mem_cons, not_or] at hs
    rw [List.foldl_cons, ih _ s hs.2]
    simp [store, hs.1]

/-- When no slot is named twice, a slot holds the value stored into it. -/
theorem foldl_store_written (log : List (Nat × Nat)) :
    ∀ (mem : Nat → Option Nat) (s v : Nat), (log.map Prod.fst).Nodup → (s, v) ∈ log →
      (log.foldl store mem) s = some v := by
  induction log with
  | nil => intro mem s v _ hmem; simp at hmem
  | cons w log ih =>
    intro mem s v hnodup hmem
    simp only [List.map_cons, List.nodup_cons] at hnodup
    rw [List.foldl_cons]
    rcases List.mem_cons.1 hmem with heq | hin
    · subst heq
      rw [foldl_store_other log _ s hnodup.1]
      simp [store]
    · exact ih _ s v hnodup.2 hin

theorem mem_index_stores (W H : Nat) (w : Nat × Nat) :
    w ∈ index_stores W H ↔ ∃ y, y < H ∧ ∃ x, x < W ∧ w ∈ tile_stores W y x := by
  simp [index_stores, List.mem_flatMap, List.mem_range]

theorem corner_bound (W H y x : Nat) (hy : y ≤ H) (hx : x ≤ W) :
    y * (W + 1) + x < (H + 1) * (W + 1) := by
  have h1 : y * (W + 1) ≤ H * (W + 1) := Nat.mul_le_mul_right _ hy
  have h2 : (H + 1) * (W + 1) = H * (W + 1) + (W + 1) := by ring
  omega

theorem slot_bound (W H y x k : Nat) (hy : y < H) (hx : x < W) (hk : k < 6) :
    (y * W + x) * 6 + k < H * W * 6 := by
  have h1 : (y + 1) * W ≤ H * W := Nat.mul_le_mul_right _ hy
  have h2 : (y + 1) * W = y * W + W := by ring
  omega

theorem to_GLuint_corner (W H y x : Nat) (hvert : (H + 1) * (W + 1) < 2 ^ 31)
    (hy : y ≤ H) (hx : x ≤ W) :
    to_GLuint (y * (W + 1) + x) = y * (W + 1) + x := by
  have := corner_bound W H y x hy hx
  exact Nat.mod_eq_of_lt (by omega)

theorem tile_stores_values (W H y x : Nat) (hvert : (H + 1) * (W + 1) < 2 ^ 31)
    (hy : y < H) (hx : x < W) :
    tile_stores W y x
      = [((y * W + x) * 6 + 0, y * (W + 1) + x),
         ((y * W + x) * 6 + 1, (y + 1) * (W + 1) + x),
         ((y * W + x) * 6 + 2, y * (W + 1) + (x + 1)),
         ((y * W + x) * 6 + 3, y * (W + 1) + (x + 1)),
         ((y * W + x) * 6 + 4, (y + 1) * (W + 1) + x),
         ((y * W + x) * 6 + 5, (y + 1) * (W + 1) + (x + 1))] := by
  simp only [tile_stores, Nat.add_zero]
  rw [to_GLuint_corner W H y x hvert (by omega) (by omega),
    to_GLuint_corner W H (y + 1) x hvert (by omega) (by omega),
    to_GLuint_corner W H y (x + 1) hvert (by omega) (by omega),
    to_GLuint_corner W H (y + 1) (x + 1) hvert (by omega) (by omega)]

/-- C19.  For tile counts `W = eyeTilesWide` and `H = eyeTilesHigh` whose
products fit the `int` arithmetic of the loop: `num_distortion_indices` is
`6 * W * H` and `num_distortion_vertices` is `(W + 1) * (H + 1)`; the stores
of the loops go to the slots `0, 1, ..., 6 * W * H - 1` in that order, so each
slot is written exactly once and every slot `(y * W + x) * 6 + k` is inside
the array; every value stored is below `num_distortion_vertices`; and the
tile `(x, y)` holds the corners `TL, BL, TR` and `TR, BL, BR`, with
`TL = y * (W + 1) + x`, `TR = TL + 1`, `BL = (y + 1) * (W + 1) + x` and
`BR = BL + 1`.  Nothing is written past the array. -/
theorem distortion_indices_grid (W H : Nat) (hvert : (H + 1) * (W + 1) < 2 ^ 31)
    (hind : H * W * 6 < 2 ^ 31) :
    num_distortion_indices W H = 6 * W * H ∧
    num_distortion_vertices W H = (W + 1) * (H + 1) ∧
    (index_stores W H).map Prod.fst = List.range (6 * W * H) ∧
    (∀ s, s < 6 * W * H → ((index_stores W H).map Prod.fst).count s = 1) ∧
    (∀ w, w ∈ index_stores W H →
      w.1 < num_distortion_indices W H ∧ w.2 < num_distortion_vertices W H) ∧
    (∀ x y k, x < W → y < H → k < 6 → (y * W + x) * 6 + k < num_distortion_indices W H) ∧
    (∀ x y, x < W → y < H →
      distortion_indices W H ((y * W + x) * 6 + 0) = some (y * (W + 1) + x) ∧
      distortion_indices W H ((y * W + x) * 6 + 1) = some ((y + 1) * (W + 1) + x) ∧
      distortion_indices W H ((y * W + x) * 6 + 2) = some (y * (W + 1) + x + 1) ∧
      distortion_indices W H ((y * W + x) * 6 + 3) = some (y * (W + 1) + x + 1) ∧
      distortion_indices W H ((y * W + x) * 6 + 4) = some ((y + 1) * (W + 1) + x) ∧
      distortion_indices W H ((y * W + x) * 6 + 5) = some ((y + 1) * (W + 1) + x + 1)) ∧
    (∀ s, 6 * W * H ≤ s → distortion_indices W H s = none) := by
  have hcomm : H * W * 6 = 6 * W * H := by ring
  have hni : num_distortion_indices W H = 6 * W * H := by
    unfold num_distortion_indices to_GLuint
    rw [Nat.mod_eq_of_lt (by omega), hcomm]
  have hnv : num_distortion_vertices W H = (W + 1) * (H + 1) := by
    unfold num_distortion_vertices to_GLuint
    rw [Nat.mod_eq_of_lt (by omega), Nat.mul_comm]
  have hslots : (index_stores W H).map Prod.fst = List.range (6 * W * H) := by
    rw [index_slots, hcomm]
  have hnodup : ((index_stores W H).map Prod.fst).Nodup := by
    rw [hslots]
    exact List.nodup_range _
  have hmem : ∀ x y, x < W → y < H → ∀ w, w ∈
      [((y * W + x) * 6 + 0, y * (W + 1) + x),
       ((y * W + x) * 6 + 1, (y + 1) * (W + 1) + x),
       ((y * W + x) * 6 + 2, y * (W + 1) + (x + 1)),
       ((y * W + x) * 6 + 3, y * (W + 1) + (x + 1)),
       ((y * W + x) * 6 + 4, (y + 1) * (W + 1) + x),
       ((y * W + x) * 6 + 5, (y + 1) * (W + 1) + (x + 1))] → w ∈ index_stores W H := by
    intro x y hx hy w hw
    rw [mem_index_stores]
    exact ⟨y, hy, x, hx, by rw [tile_stores_values W H y x hvert hy hx]; exact hw⟩
  refine ⟨hni, hnv, hslots, ?_, ?_, ?_, ?_, ?_⟩
  · intro s hs
    rw [hslots]
    exact List.count_eq_one_of_mem (List.nodup_range _) (List.mem_range.2 hs)
  · intro w hw
    rw [hni, hnv]
    obtain ⟨y, hy, x, hx, hin⟩ := (mem_index_stores W H w).1 hw
    rw [tile_stores_values W H y x hvert hy hx] at hin
    have hs := fun k (hk : k < 6) => slot_bound W H y x k hy hx hk
    have hc := fun dy dx (hdy : y + dy ≤ H) (hdx : x + dx ≤ W) =>
      corner_bound W H (y + dy) (x + dx) hdy hdx
    have h00 := hc 0 0 (by omega) (by omega)
    have h10 := hc 1 0 (by omega) (by omega)
    have h01 := hc 0 1 (by omega) (by omega)
    have h11 := hc 1 1 (by omega) (by omega)
    have hmul : (W + 1) * (H + 1) = (H + 1) * (W + 1) := Nat.mul_comm _ _
    simp only [List.mem_cons, List.mem_singleton, List.not_mem_nil, or_false] at hin
    have hs0 := hs 0 (by omega)
    rcases hin with h | h | h | h | h | h <;> subst h <;> refine ⟨?_, ?_⟩ <;>
      simp only [Nat.add_zero] at * <;> omega
  · intro x y k hx hy hk
    rw [hni, ← hcomm]
    exact slot_bound W H y x k hy hx hk
  · intro x y hx hy
    have hw := hmem x y hx hy
    unfold distortion_indices
    refine ⟨?_, ?_, ?_, ?_, ?_, ?_⟩ <;>
      exact foldl_store_written _ _ _ _ hnodup (hw _ (by simp [Nat.add_assoc]))
  · intro s hs
    unfold distortion_indices
    rw [foldl_store_other _ _ s (by rw [hslots, List.mem_range]; omega)]


/-- C19 at a grid of three by two tiles. -/
theorem distortion_indices_grid_witness :
    (index_stores 3 2).map Prod.snd
      = [0, 4, 1, 1, 4, 5, 1, 5, 2, 2, 5, 6, 2, 6, 3, 3, 6, 7,
         4, 8, 5, 5, 8, 9, 5, 9, 6, 6, 9, 10, 6, 10, 7, 7, 10, 11] ∧
    num_distortion_indices 3 2 = 6 * 3 * 2 ∧
    num_distortion_vertices 3 2 = (3 + 1) * (2 + 1) ∧
    (index_stores 3 2).map Prod.fst = List.range (6 * 3 * 2) := by
  have key := distortion_indices_grid 3 2 (by decide) (by decide)
  exact ⟨by decide, key.1, key.2.1, key.2.2.1⟩

end timewarp_gl
